import Mathlib

/-!
# libcman: demultiplexer, dispatch loop and synchronous call

A shallow embedding of `cman/lib/libcman.c`: `add_to_waitlist`,
`process_cman_message`, `cman_dispatch`, `wait_for_reply`, `loopy_writev`,
`info_call` and `cman_send_data`, followed by the properties proved of them.

* A message in memory is the list of its bytes (`List Nat`).  The struct
  declarations of `cnxman-socket.h` and the constants of `libcman.h` are not
  part of the source tree at hand, so field reads (`msg->command`, ...) and
  constants are taken from a parameter `Proto`; `cnxman` is one instance, used
  for the concrete examples.
* The three saved-message lists are Lean lists (head = first node).
* The connection is a script of what successive `recv`/`read` calls will
  find; `malloc` outcomes are a script of booleans; callbacks are recorded
  in a log.  A call that never returns (a blocking read with nothing to come)
  is `none`.
* The sending direction of the connection is a script of what successive
  `writev` calls will do, with a record of the bytes taken.  An array of
  `struct iovec` is the list of its segments, followed by what the memory
  behind the array holds when read as further entries.
* C `int` values are `Int`; conversions to `int`, `uint32_t` and `size_t` wrap.
* `memcpy` and the receive buffer are modelled where C defines them: the
  statements about copied or classified bytes are made for complete frames
  that fit the buffer.
-/

namespace Cman

/-! ## Machine integers and system constants -/

/-- Conversion of an integer value to a C `int` (two's complement, 32 bit). -/
def int32 (z : Int) : Int := (z + 2 ^ 31) % 2 ^ 32 - 2 ^ 31

/-- Conversion of an integer value to `size_t` (64 bit). -/
def size_t (z : Int) : Nat := (z % 2 ^ 64).toNat

/-- Conversion of an integer value to `uint32_t`. -/
def uint32 (z : Int) : Nat := (z % 2 ^ 32).toNat

def EINTR : Int := 4
def EAGAIN : Int := 11
def ENOMEM : Int := 12
def EINVAL : Int := 22
def EHOSTDOWN : Int := 112

/-- The size of the receive buffer `char buf[PIPE_BUF]` of `cman_dispatch`. -/
def PIPE_BUF : Nat := 4096

/-! ## The declarations of `cnxman-socket.h` and `libcman.h` -/

/-- The constants, struct sizes and struct field reads that the source takes
from its two headers.  A field read is a function of the bytes at the
message pointer. -/
structure Proto where
  CMAN_MAGIC : Nat
  CMAN_CMD_DATA : Nat
  CMAN_CMD_EVENT : Nat
  CMAN_CMDMASK_CMD : Nat
  CMAN_CMDFLAG_REPLY : Nat
  CMAN_DISPATCH_ALL : Nat
  CMAN_DISPATCH_BLOCKING : Nat
  CMAN_DISPATCH_IGNORE_REPLY : Nat
  CMAN_DISPATCH_IGNORE_DATA : Nat
  CMAN_DISPATCH_IGNORE_EVENT : Nat
  /-- The value of `sizeof(struct sock_header)`. -/
  sizeof_sock_header : Nat
  /-- The value of `sizeof(struct sock_reply_header)`. -/
  sizeof_sock_reply_header : Nat
  /-- The value of `sizeof(struct sock_data_header)`. -/
  sizeof_sock_data_header : Nat
  /-- Field `magic` of `struct sock_header`. -/
  magic : List Nat → Nat
  /-- Field `command` of `struct sock_header`. -/
  command : List Nat → Nat
  /-- Field `length` of `struct sock_header` (a `uint32_t`). -/
  length : List Nat → Nat
  /-- Field `status` of `struct sock_reply_header`. -/
  status : List Nat → Int
  /-- Field `nodeid` of `struct sock_data_header`. -/
  nodeid : List Nat → Int
  /-- Field `port` of `struct sock_data_header`. -/
  port : List Nat → Nat
  /-- Field `reason` of `struct sock_event_message`. -/
  reason : List Nat → Int
  /-- Field `arg` of `struct sock_event_message`. -/
  arg : List Nat → Int

/-! ## The process state -/

/-- One entry of the connection script. -/
inductive Chunk where
  /-- Bytes that have arrived and can be read without waiting. -/
  | bytes (bs : List Nat)
  /-- The peer has closed the connection. -/
  | eof
  /-- The next read fails with this `errno`. -/
  | err (e : Int)
  deriving DecidableEq, Repr

/-- A callback invocation, as recorded in the log. -/
inductive Upcall where
  /-- Call `data_callback(h, private, buf, len, port, nodeid)`; `buf` is the
  memory from the pointer to the end of the message buffer. -/
  | data (buf : List Nat) (len : Int) (port : Nat) (nodeid : Int)
  /-- Call `event_callback(h, private, reason, arg)`. -/
  | event (reason : Int) (arg : Int)
  deriving DecidableEq, Repr

/-- The fields of `struct cman_handle` that the functions below use, followed
by the part of the process environment they act on.  `fd` is represented by
the connection script `sock`; a `NULL` buffer is the empty list. -/
structure cman_handle where
  magic : Nat
  want_reply : Int
  event_callback : Bool
  data_callback : Bool
  reply_buffer : List Nat
  reply_buflen : Int
  reply_status : Int
  saved_data_msg : List (List Nat)
  saved_event_msg : List (List Nat)
  saved_reply_msg : List (List Nat)
  /-- What the connection `fd` will deliver. -/
  sock : List Chunk
  /-- Outcomes of the coming `malloc` calls (`false` = `NULL`); when the
  script is used up `malloc` succeeds. -/
  heap : List Bool
  errno : Int
  /-- The callback invocations made so far, oldest first. -/
  calls : List Upcall
  deriving DecidableEq, Repr

/-! ## Library calls -/

/-- Model of `malloc`: the outcome and the remaining script.  A call that
fails also sets `errno` to `ENOMEM`; the caller of `malloc` accounts for that
(`add_to_waitlist_errno`). -/
def malloc : List Bool → Bool × List Bool
  | [] => (true, [])
  | b :: rest => (b, rest)

/-- Model of `memcpy(dst, src, n)` on the contents of the two memory areas:
the first `n` bytes of `dst` are replaced by the first `n` bytes of `src`. -/
def memcpy (dst src : List Nat) (n : Nat) : List Nat :=
  src.take n ++ dst.drop n

/-- Model of `read(fd, buf, n)` and `recv(fd, buf, n, flags)`; `nonblock`
stands for `MSG_DONTWAIT`.  The result is the return value, the bytes stored
at `buf`, the new `errno` and the remaining script; `none` means that the call
never returns (blocking, and nothing will arrive). -/
def sys_read : List Chunk → Nat → Bool → Int → Option (Int × List Nat × Int × List Chunk)
  | [], _, nonblock, _ => if nonblock then some (-1, [], EAGAIN, []) else none
  | Chunk.eof :: rest, _, _, errno => some (0, [], errno, Chunk.eof :: rest)
  | Chunk.err e :: rest, _, _, _ => some (-1, [], e, rest)
  | Chunk.bytes bs :: rest, n, nonblock, errno =>
    if bs = [] then sys_read rest n nonblock errno
    else if bs.drop n = [] then some ((bs.length : Int), bs, errno, rest)
    else some ((n : Int), bs.take n, errno, Chunk.bytes (bs.drop n) :: rest)

/-! ## `add_to_waitlist` -/

/-- The walk `for (; next; next = next->next) last = next; last->next = this`
over a non-empty list, and `*m = this` for the empty one. -/
def link_last (this : List Nat) : List (List Nat) → List (List Nat)
  | [] => [this]
  | first :: next => first :: link_last this next

/-- Source `add_to_waitlist(m, msg)`: the new malloc script and the new list. -/
def add_to_waitlist (P : Proto) (heap : List Bool) (m : List (List Nat)) (msg : List Nat) :
    List Bool × List (List Nat) :=
  match malloc heap with
  | (false, heap1) => (heap1, m)
  | (true, heap1) =>
    match malloc heap1 with
    | (false, heap2) => (heap2, m)
    | (true, heap2) => (heap2, link_last (memcpy [] msg (P.length msg)) m)

/-- The value of `errno` after `add_to_waitlist`, `errno` being its value
before: the `malloc` that fails leaves `ENOMEM`, and nothing else in the
function touches `errno`. -/
def add_to_waitlist_errno (heap : List Bool) (errno : Int) : Int :=
  match malloc heap with
  | (false, _) => ENOMEM
  | (true, heap1) =>
    match malloc heap1 with
    | (false, _) => ENOMEM
    | (true, _) => errno

/-- Both `malloc` calls of `add_to_waitlist` succeed: the one for the list
node and the one for the copy of the message. -/
def waitlist_alloc (heap : List Bool) : Bool :=
  (malloc heap).1 && (malloc (malloc heap).2).1

/-! ## `process_cman_message` -/

/-- Source `process_cman_message(h, flags, msg)`: the return value and the
new state. -/
def process_cman_message (P : Proto) (h : cman_handle) (flags : Nat) (msg : List Nat) :
    Int × cman_handle :=
  -- Data for us
  if P.command msg &&& P.CMAN_CMDMASK_CMD = P.CMAN_CMD_DATA then
    if flags &&& P.CMAN_DISPATCH_IGNORE_DATA ≠ 0 then
      let r := add_to_waitlist P h.heap h.saved_data_msg msg
      (0, { h with heap := r.1, saved_data_msg := r.2,
                   errno := add_to_waitlist_errno h.heap h.errno })
    else if h.data_callback then
      (0, { h with calls := h.calls ++
              [Upcall.data (msg.drop P.sizeof_sock_data_header)
                (int32 ((P.length msg : Int) - P.sizeof_sock_data_header))
                (P.port msg) (P.nodeid msg)] })
    else (0, h)
  -- Got a reply to a previous information request
  else if P.command msg &&& P.CMAN_CMDFLAG_REPLY ≠ 0 ∧ h.want_reply ≠ 0 then
    let replylen : Int := int32 ((P.length msg : Int) - P.sizeof_sock_reply_header)
    if flags &&& P.CMAN_DISPATCH_IGNORE_REPLY ≠ 0 then
      let r := add_to_waitlist P h.heap h.saved_reply_msg msg
      (0, { h with heap := r.1, saved_reply_msg := r.2,
                   errno := add_to_waitlist_errno h.heap h.errno })
    else
      let replybuf := msg.drop P.sizeof_sock_reply_header
      let h1 : cman_handle :=
        if replylen ≤ h.reply_buflen then
          { h with reply_buffer := memcpy h.reply_buffer replybuf (size_t replylen) }
        else h
      (1, { h1 with want_reply := 0, reply_status := P.status msg })
  -- OOB event
  else if P.command msg = P.CMAN_CMD_EVENT then
    if flags &&& P.CMAN_DISPATCH_IGNORE_EVENT ≠ 0 then
      let r := add_to_waitlist P h.heap h.saved_event_msg msg
      (0, { h with heap := r.1, saved_event_msg := r.2,
                   errno := add_to_waitlist_errno h.heap h.errno })
    else if h.event_callback then
      (0, { h with calls := h.calls ++ [Upcall.event (P.reason msg) (P.arg msg)] })
    else (0, h)
  else (0, h)

/-! ## `cman_dispatch` -/

/-- How control leaves one pass through the body of the `do ... while` of
`cman_dispatch`. -/
inductive Step where
  /-- The loop condition is reached (`continue`, or the end of the body),
  with this value of `len`. -/
  | next (len : Int) (h : cman_handle)
  /-- Statement `break`, with this value of `len`. -/
  | brk (len : Int) (h : cman_handle)
  /-- Statement `return v`. -/
  | ret (v : Int) (h : cman_handle)
  /-- The blocking read never returns. -/
  | block
  deriving DecidableEq, Repr

/-- The tail of the loop body: `if (process_cman_message(h, flags, header))
break;` for the message in `buf`, `len` being the last read count. -/
def dispatch_classify (P : Proto) (h : cman_handle) (flags : Nat) (buf : List Nat) (len : Int) :
    Step :=
  let r := process_cman_message P h flags buf
  if r.1 ≠ 0 then Step.brk len r.2 else Step.next len r.2

/-- The part of the loop body after the queues: "Now look for new messages". -/
def dispatch_read (P : Proto) (h : cman_handle) (flags : Nat) : Step :=
  let nonblock : Bool := flags &&& P.CMAN_DISPATCH_BLOCKING = 0
  match sys_read h.sock P.sizeof_sock_header nonblock h.errno with
  | none => Step.block
  | some (len, buf, errno1, sock1) =>
    let h1 : cman_handle := { h with sock := sock1, errno := errno1 }
    if len = 0 then Step.ret (-1) { h1 with errno := EHOSTDOWN }
    else if len < 0 ∧ (h1.errno = EINTR ∨ h1.errno = EAGAIN) then Step.ret 0 h1
    else if len < 0 then Step.ret (-1) h1
    -- Read the rest
    else if uint32 len ≠ P.length buf then
      match sys_read h1.sock (uint32 ((P.length buf : Int) - len)) false h1.errno with
      | none => Step.block
      | some (len2, rest, errno2, sock2) =>
        let h2 : cman_handle := { h1 with sock := sock2, errno := errno2 }
        if len2 = 0 then Step.ret (-1) { h2 with errno := EHOSTDOWN }
        else if len2 < 0 ∧ (h2.errno = EINTR ∨ h2.errno = EAGAIN) then Step.ret 0 h2
        else if len2 < 0 then Step.ret (-1) h2
        else dispatch_classify P h2 flags (buf ++ rest) len2
    else dispatch_classify P h1 flags buf len

/-- One pass through the body of the `do ... while` of `cman_dispatch`. -/
def dispatch_body (P : Proto) (h : cman_handle) (flags : Nat) : Step :=
  -- First, drain any waiting queues
  match h.saved_reply_msg, decide (flags &&& P.CMAN_DISPATCH_IGNORE_REPLY = 0) with
  | smsg :: _, true =>
    let h1 := (process_cman_message P h flags smsg).2
    Step.next (int32 (P.length smsg)) { h1 with saved_reply_msg := h1.saved_reply_msg.tail }
  | _, _ =>
  match h.saved_data_msg, decide (flags &&& P.CMAN_DISPATCH_IGNORE_DATA = 0) with
  | smsg :: _, true =>
    let h1 := (process_cman_message P h flags smsg).2
    Step.next (int32 (P.length smsg)) { h1 with saved_data_msg := h1.saved_data_msg.tail }
  | _, _ =>
  match h.saved_event_msg, decide (flags &&& P.CMAN_DISPATCH_IGNORE_EVENT = 0) with
  | smsg :: _, true =>
    let h1 := (process_cman_message P h flags smsg).2
    Step.next (int32 (P.length smsg)) { h1 with saved_event_msg := h1.saved_event_msg.tail }
  | _, _ => dispatch_read P h flags

/-- The `do ... while` of `cman_dispatch`, at most `fuel` passes; `none` when
a read never returns (or the passes are used up). -/
def dispatch_loop (P : Proto) : Nat → cman_handle → Nat → Option (Int × cman_handle)
  | 0, _, _ => none
  | fuel + 1, h, flags =>
    match dispatch_body P h flags with
    | Step.block => none
    | Step.ret v h1 => some (v, h1)
    | Step.brk len h1 => some (len, h1)
    | Step.next len h1 =>
      if flags &&& P.CMAN_DISPATCH_ALL ≠ 0 ∧ (len < 0 ∧ h1.errno = EAGAIN) then
        dispatch_loop P fuel h1 flags
      else some (len, h1)

/-- Source `cman_dispatch(handle, flags)` for a non-`NULL` handle: the return
value and the new state, or `none` when the call never returns.  A pass that
leads to another pass has removed a saved message, so the number of saved
messages plus one bounds the number of passes. -/
def cman_dispatch (P : Proto) (h : cman_handle) (flags : Nat) : Option (Int × cman_handle) :=
  if h.magic ≠ P.CMAN_MAGIC then some (-1, { h with errno := EINVAL })
  else
    dispatch_loop P
      (h.saved_reply_msg.length + h.saved_data_msg.length + h.saved_event_msg.length + 1) h flags

/-! ## `wait_for_reply` -/

/-- The `do ... while (h->want_reply == 1 && ret >= 0)` of `wait_for_reply`, at
most `fuel` passes: the last value of `ret` and the state. -/
def wait_loop (P : Proto) : Nat → cman_handle → Option (Int × cman_handle)
  | 0, _ => none
  | fuel + 1, h =>
    match cman_dispatch P h
        (P.CMAN_DISPATCH_BLOCKING ||| P.CMAN_DISPATCH_IGNORE_EVENT ||| P.CMAN_DISPATCH_IGNORE_DATA) with
    | none => none
    | some (ret, h1) =>
      if h1.want_reply = 1 ∧ ret ≥ 0 then wait_loop P fuel h1 else some (ret, h1)

/-- Source `wait_for_reply(h, msg, max_len)`, `msg` being the contents of the
caller's buffer: the return value, the contents of the caller's buffer
afterwards and the new state. -/
def wait_for_reply (P : Proto) (fuel : Nat) (h : cman_handle) (msg : List Nat) (max_len : Int) :
    Option (Int × List Nat × cman_handle) :=
  let h0 : cman_handle := { h with want_reply := 1, reply_buffer := msg, reply_buflen := max_len }
  match wait_loop P fuel h0 with
  | none => none
  | some (ret, h1) =>
    let out := h1.reply_buffer
    let h2 : cman_handle := { h1 with reply_buffer := [], reply_buflen := 0 }
    -- Error in local comms
    if ret < 0 then some (-1, out, h2)
    -- cnxman daemon returns -ve errno values on error
    else if h2.reply_status < 0 then
      some (-1, out, { h2 with errno := int32 (-h2.reply_status) })
    else some (h2.reply_status, out, h2)

/-! ## A concrete instance of the header declarations -/

/-- Read of an unsigned 32-bit little-endian field at byte offset `off`. -/
def le32 (b : List Nat) (off : Nat) : Nat :=
  b.getD off 0 + 256 * b.getD (off + 1) 0 + 65536 * b.getD (off + 2) 0 +
    16777216 * b.getD (off + 3) 0

/-- The four bytes of an unsigned 32-bit little-endian field. -/
def bytes32 (v : Nat) : List Nat :=
  [v % 256, v / 256 % 256, v / 65536 % 256, v / 16777216 % 256]

/-- Modelled from the spec: `cnxman-socket.h` and `libcman.h` are missing from
the source tree; this instance follows the wire format of the specification
(a fixed header of protocol tag, command code, flags and total length; a reply
carries a signed status word after the header; data carries a node id and a
port; an event carries a reason and an argument), with 32-bit little-endian
fields and one bit per dispatch flag.  It is used for concrete examples only;
the general theorems hold for every `Proto`. -/
def cnxman : Proto where
  CMAN_MAGIC := 0x434d414e
  CMAN_CMD_DATA := 0x100
  CMAN_CMD_EVENT := 0x102
  CMAN_CMDMASK_CMD := 0xffff
  CMAN_CMDFLAG_REPLY := 0x40000000
  CMAN_DISPATCH_ALL := 1
  CMAN_DISPATCH_BLOCKING := 2
  CMAN_DISPATCH_IGNORE_REPLY := 4
  CMAN_DISPATCH_IGNORE_DATA := 8
  CMAN_DISPATCH_IGNORE_EVENT := 16
  sizeof_sock_header := 16
  sizeof_sock_reply_header := 20
  sizeof_sock_data_header := 24
  magic := fun b => le32 b 0
  command := fun b => le32 b 4
  length := fun b => le32 b 12
  status := fun b => int32 (le32 b 16)
  nodeid := fun b => int32 (le32 b 16)
  port := fun b => le32 b 20
  reason := fun b => int32 (le32 b 16)
  arg := fun b => int32 (le32 b 20)

/-- The bytes of a `cnxman` frame with the given command code and payload. -/
def mk_frame (command : Nat) (payload : List Nat) : List Nat :=
  bytes32 0x434d414e ++ bytes32 command ++ bytes32 0 ++ bytes32 (16 + payload.length) ++ payload

/-- A freshly opened `cnxman` session (`open_socket`): no call armed, no
callbacks, empty lists; `sock` is what the daemon will send. -/
def fresh (sock : List Chunk) : cman_handle where
  magic := 0x434d414e
  want_reply := 0
  event_callback := false
  data_callback := false
  reply_buffer := []
  reply_buflen := 0
  reply_status := 0
  saved_data_msg := []
  saved_event_msg := []
  saved_reply_msg := []
  sock := sock
  heap := []
  errno := 0
  calls := []

/-! ## Sample frames and sessions of the concrete instance -/

/-- An event frame: command `CMAN_CMD_EVENT`, reason 1, argument 10; 24 bytes. -/
def event_a : List Nat := mk_frame 0x102 (bytes32 1 ++ bytes32 10)

/-- An event frame: command `CMAN_CMD_EVENT`, reason 2, argument 20; 24 bytes. -/
def event_b : List Nat := mk_frame 0x102 (bytes32 2 ++ bytes32 20)

/-- A data frame: command `CMAN_CMD_DATA`, node id 3, port 5, three bytes of
data; 27 bytes. -/
def data_a : List Nat := mk_frame 0x100 (bytes32 3 ++ bytes32 5 ++ [7, 7, 7])

/-- A reply frame (command 7 with the reply flag): status 0 and a body of 8
bytes; 28 bytes. -/
def reply_ok : List Nat := mk_frame 0x40000007 (bytes32 0 ++ [1, 2, 3, 4, 5, 6, 7, 8])

/-- A reply frame (command 7 with the reply flag): status -22 and no body; 20
bytes. -/
def reply_err : List Nat := mk_frame 0x40000007 (bytes32 (2 ^ 32 - 22))

/-- A `cnxman` session with a call armed on a destination buffer of the given
contents and capacity. -/
def armed (buffer : List Nat) (buflen : Int) : cman_handle :=
  { fresh [] with want_reply := 1, reply_buffer := buffer, reply_buflen := buflen }

/-- A `cnxman` session with an event callback registered. -/
def listening (sock : List Chunk) : cman_handle :=
  { fresh sock with event_callback := true }

/-- A `cnxman` session with an event callback registered and the given
events saved. -/
def backlog (events : List (List Nat)) : cman_handle :=
  { listening [] with saved_event_msg := events }

/-- A `cnxman` session with one saved message in each list. -/
def all_due : cman_handle :=
  { listening [] with
    saved_reply_msg := [reply_ok], saved_data_msg := [data_a], saved_event_msg := [event_a] }

/-! ## Vocabulary of the statements -/

/-- The flags that `wait_for_reply` passes to `cman_dispatch`. -/
def wait_flags (P : Proto) : Nat :=
  P.CMAN_DISPATCH_BLOCKING ||| P.CMAN_DISPATCH_IGNORE_EVENT ||| P.CMAN_DISPATCH_IGNORE_DATA

/-- The message is classified as data: `(msg->command & CMAN_CMDMASK_CMD) ==
CMAN_CMD_DATA`. -/
def is_data (P : Proto) (msg : List Nat) : Prop :=
  P.command msg &&& P.CMAN_CMDMASK_CMD = P.CMAN_CMD_DATA

/-- The message carries the reply flag: `msg->command & CMAN_CMDFLAG_REPLY`. -/
def is_reply (P : Proto) (msg : List Nat) : Prop :=
  P.command msg &&& P.CMAN_CMDFLAG_REPLY ≠ 0

/-- The message is an event: `msg->command == CMAN_CMD_EVENT`. -/
def is_event (P : Proto) (msg : List Nat) : Prop :=
  P.command msg = P.CMAN_CMD_EVENT

instance (P : Proto) (msg : List Nat) : Decidable (is_data P msg) := by
  unfold is_data; infer_instance

instance (P : Proto) (msg : List Nat) : Decidable (is_reply P msg) := by
  unfold is_reply; infer_instance

instance (P : Proto) (msg : List Nat) : Decidable (is_event P msg) := by
  unfold is_event; infer_instance

/-- What the statements assume of the header declarations: the dispatch flags
are distinct bits as far as `wait_for_reply` relies on it, the event command
is neither a data command nor reply-flagged, the header is not empty, and the
field `length` lies within `struct sock_header`. -/
structure Proto.sane (P : Proto) : Prop where
  wait_data : wait_flags P &&& P.CMAN_DISPATCH_IGNORE_DATA ≠ 0
  wait_event : wait_flags P &&& P.CMAN_DISPATCH_IGNORE_EVENT ≠ 0
  wait_reply : wait_flags P &&& P.CMAN_DISPATCH_IGNORE_REPLY = 0
  event_not_data : P.CMAN_CMD_EVENT &&& P.CMAN_CMDMASK_CMD ≠ P.CMAN_CMD_DATA
  event_not_reply : P.CMAN_CMD_EVENT &&& P.CMAN_CMDFLAG_REPLY = 0
  header_pos : 0 < P.sizeof_sock_header
  length_in_header : ∀ b : List Nat, P.length (b.take P.sizeof_sock_header) = P.length b

/-- A complete, well-formed frame: its bytes are exactly as many as its
`length` field says, it has a whole header, and it fits the receive buffer. -/
structure Frame (P : Proto) (f : List Nat) : Prop where
  complete : f.length = P.length f
  header : P.sizeof_sock_header ≤ f.length
  fits : f.length ≤ PIPE_BUF

/-- The connection script after a read that left `more` of the first chunk. -/
def unread (more : List Nat) (rest : List Chunk) : List Chunk :=
  if more = [] then rest else Chunk.bytes more :: rest

/-- The frames `fs` are what the connection `s` delivers first, each of them
available as a whole when it is read, and `s1` is what remains after them. -/
def Arrives : List (List Nat) → List Chunk → List Chunk → Prop
  | [], s, s1 => s = s1
  | f :: fs, s, s1 =>
    ∃ more rest, s = Chunk.bytes (f ++ more) :: rest ∧ Arrives fs (unread more rest) s1

/-- The return value of `cman_dispatch` after reading the complete frame `f`:
the count of the last read, which is the whole header when nothing follows it
and the bytes after the header otherwise. -/
def read_len (P : Proto) (f : List Nat) : Int :=
  if f.length = P.sizeof_sock_header then (f.length : Int)
  else (f.length : Int) - P.sizeof_sock_header

/-- No saved message is due under `flags`: each list is empty or suppressed. -/
def idle (P : Proto) (h : cman_handle) (flags : Nat) : Prop :=
  (h.saved_reply_msg = [] ∨ flags &&& P.CMAN_DISPATCH_IGNORE_REPLY ≠ 0) ∧
  (h.saved_data_msg = [] ∨ flags &&& P.CMAN_DISPATCH_IGNORE_DATA ≠ 0) ∧
  (h.saved_event_msg = [] ∨ flags &&& P.CMAN_DISPATCH_IGNORE_EVENT ≠ 0)

/-- The contents of the destination buffer after `process_cman_message` has
consumed the reply `r`. -/
def reply_copy (P : Proto) (buffer : List Nat) (buflen : Int) (r : List Nat) : List Nat :=
  if int32 ((P.length r : Int) - P.sizeof_sock_reply_header) ≤ buflen then
    memcpy buffer (r.drop P.sizeof_sock_reply_header)
      (size_t (int32 ((P.length r : Int) - P.sizeof_sock_reply_header)))
  else buffer

/-- The return value of `wait_for_reply` for the stored status `s`. -/
def status_result (s : Int) : Int := if s < 0 then -1 else s

/-- The state in which a pass through the loop body ends, if it ends. -/
def Step.state? : Step → Option cman_handle
  | Step.next _ h => some h
  | Step.brk _ h => some h
  | Step.ret _ h => some h
  | Step.block => none

/-- How a list of saved messages may change during one call of
`cman_dispatch`: a suppressed list only grows at its tail, a list that is not
suppressed only loses entries at its head. -/
def fifo_change (suppressed : Prop) (q q1 : List (List Nat)) : Prop :=
  (suppressed → q <+: q1) ∧ (¬ suppressed → q1 <:+ q)

/-- The three lists change as `fifo_change` says, each under its own flag. -/
def queues_fifo (P : Proto) (flags : Nat) (h h1 : cman_handle) : Prop :=
  fifo_change (flags &&& P.CMAN_DISPATCH_IGNORE_REPLY ≠ 0) h.saved_reply_msg h1.saved_reply_msg ∧
  fifo_change (flags &&& P.CMAN_DISPATCH_IGNORE_DATA ≠ 0) h.saved_data_msg h1.saved_data_msg ∧
  fifo_change (flags &&& P.CMAN_DISPATCH_IGNORE_EVENT ≠ 0) h.saved_event_msg h1.saved_event_msg

/-- The invariant of the three lists of saved messages: an entry is of the
category under which `process_cman_message` files it, and its `length` field is
a non-negative `int`. -/
structure queues_typed (P : Proto) (h : cman_handle) : Prop where
  reply : ∀ m ∈ h.saved_reply_msg, (¬ is_data P m ∧ is_reply P m) ∧ P.length m < 2 ^ 31
  data : ∀ m ∈ h.saved_data_msg, is_data P m ∧ P.length m < 2 ^ 31
  event : ∀ m ∈ h.saved_event_msg, (¬ is_data P m ∧ is_event P m) ∧ P.length m < 2 ^ 31

/-- No saved message has been removed: each list still starts with what it
held. -/
def none_removed (h h1 : cman_handle) : Prop :=
  h.saved_reply_msg <+: h1.saved_reply_msg ∧ h.saved_data_msg <+: h1.saved_data_msg ∧
    h.saved_event_msg <+: h1.saved_event_msg

/-- The number of saved messages that `cman_dispatch` may drain under
`flags`. -/
def due_count (P : Proto) (h : cman_handle) (flags : Nat) : Nat :=
  (if flags &&& P.CMAN_DISPATCH_IGNORE_REPLY = 0 then h.saved_reply_msg.length else 0) +
  (if flags &&& P.CMAN_DISPATCH_IGNORE_DATA = 0 then h.saved_data_msg.length else 0) +
  (if flags &&& P.CMAN_DISPATCH_IGNORE_EVENT = 0 then h.saved_event_msg.length else 0)

/-- The connection is at its end for the next frame: the read of the header
finds end-of-stream, or the read of the header returns the bytes `hb`, which are
not a whole frame, and the read of the rest finds end-of-stream. -/
def at_eof (P : Proto) (s : List Chunk) : Prop :=
  (∃ rest, s = Chunk.eof :: rest) ∨
  (∃ hb rest, s = Chunk.bytes hb :: Chunk.eof :: rest ∧ hb ≠ [] ∧
    hb.length ≤ P.sizeof_sock_header ∧ hb.length ≤ PIPE_BUF ∧ P.length hb ≠ hb.length)

/-- An event frame like `event_a` but with protocol tag 0 in place of
`CMAN_MAGIC`. -/
def alien_event : List Nat :=
  bytes32 0 ++ bytes32 0x102 ++ bytes32 0 ++ bytes32 24 ++ bytes32 1 ++ bytes32 10

/-- The limit on the `iovcnt` argument of `writev`. -/
def IOV_MAX : Nat := 1024

/-- One entry of the script of the sending direction of the connection. -/
inductive WChunk where
  /-- The next `writev` takes at most `k` of the bytes it is offered. -/
  | room (k : Nat)
  /-- The next `writev` fails with this `errno`. -/
  | err (e : Int)
  deriving DecidableEq, Repr

/-- The sending direction of `fd`: what the coming `writev` calls will do (when
the script is used up a call takes all it is offered) and the bytes the
connection has taken so far. -/
structure Outbound where
  script : List WChunk
  sent : List Nat
  deriving DecidableEq, Repr

/-- Model of `writev(fd, iovptr, iovlen)`.  `mem` is the memory at `iovptr`
read as `struct iovec` entries, each given by the `iov_len` bytes at its
`iov_base`.  The result is the return value, the new `errno` and the
connection afterwards. -/
def sys_writev (w : Outbound) (mem : List (List Nat)) (iovlen : Nat) (errno : Int) :
    Int × Int × Outbound :=
  if iovlen > IOV_MAX then (-1, EINVAL, w)
  else
    let offered := (mem.take iovlen).flatten
    match w.script with
    | [] => ((offered.length : Int), errno, { w with sent := w.sent ++ offered })
    | WChunk.err e :: rest => (-1, e, { w with script := rest })
    | WChunk.room k :: rest =>
      (((offered.take k).length : Int), errno,
        { script := rest, sent := w.sent ++ offered.take k })

/-- The inner loop of `loopy_writev`, `while (len >= iovptr->iov_len) { len -=
iovptr->iov_len; iovptr++; iovlen--; }`: the values of `len`, `*iovptr`, the
memory after `*iovptr` and `iovlen` when it ends; `none` when it walks out of
the memory given. -/
def skip_written : Nat → List (List Nat) → Nat → Option (Nat × List Nat × List (List Nat) × Nat)
  | _, [], _ => none
  | len, seg :: rest, iovlen =>
    if len ≥ seg.length then skip_written (len - seg.length) rest (size_t ((iovlen : Int) - 1))
    else some (len, seg, rest, iovlen)

/-- The outer loop of `loopy_writev`, at most `fuel` passes. -/
def writev_loop : Nat → Outbound → Int → List (List Nat) → Nat → Nat →
    Option (Int × Int × Outbound)
  | 0, _, _, _, _, _ => none
  | fuel + 1, w, errno, mem, iovlen, byte_cnt =>
    if iovlen > 0 then
      match sys_writev w mem iovlen errno with
      | (len, errno1, w1) =>
        if len ≤ 0 then some (len, errno1, w1)
        else
          let byte_cnt1 := size_t ((byte_cnt : Int) + len)
          match skip_written len.toNat mem iovlen with
          | none => none
          | some (len1, seg, rest, iovlen1) =>
            if iovlen1 ≤ 0 then some (int32 byte_cnt1, errno1, w1)
            else writev_loop fuel w1 errno1 (seg.drop len1 :: rest) iovlen1 byte_cnt1
    else some (int32 byte_cnt, errno, w)

/-- Source `loopy_writev(fd, iovptr, iovlen)`: the return value, the new
`errno` and the connection afterwards; `mem` is the memory at `iovptr` as for
`sys_writev`, so its entries after the first `iovlen` are what lies behind the
caller's array.  Every pass that leads to another has written a byte, so the
number of bytes in `mem` plus one bounds the number of passes. -/
def loopy_writev (w : Outbound) (errno : Int) (mem : List (List Nat)) (iovlen : Nat) :
    Option (Int × Int × Outbound) :=
  writev_loop (mem.flatten.length + 1) w errno mem iovlen 0

/-- The bytes of the headers that the source fills in and sends; the
declarations of the structs are in `cnxman-socket.h`. -/
structure Layout where
  /-- The bytes of a `struct sock_header` with the fields `magic`, `command`,
  `flags` and `length` set to the arguments. -/
  sock_header : Nat → Nat → Nat → Nat → List Nat
  /-- The bytes of a `struct sock_data_header` with the header fields as for
  `sock_header` and the fields `nodeid` and `port` set to the last two
  arguments. -/
  sock_data_header : Nat → Nat → Nat → Nat → Int → Nat → List Nat

/-- The write of `info_call`: `header` is filled in, `iov[0]` is set to it,
`iov[1]` is set to `inbuf` unless that is `NULL` (`none`), and `loopy_writev`
is called.  `stack` is what the memory holds from the first entry of `iov` that
is not set, read as `struct iovec` entries. -/
def send_request (P : Proto) (L : Layout) (w : Outbound) (errno : Int) (msgtype : Nat)
    (inbuf : Option (List Nat)) (inlen : Int) (stack : List (List Nat)) :
    Option (Int × Int × Outbound) :=
  let header := L.sock_header P.CMAN_MAGIC msgtype 0 (uint32 ((P.sizeof_sock_header : Int) + inlen))
  let iov0 := header.take P.sizeof_sock_header
  match inbuf with
  | some b => loopy_writev w errno (iov0 :: b.take (size_t inlen) :: stack) 2
  | none => loopy_writev w errno (iov0 :: stack) 1

/-- Source `info_call(h, msgtype, inbuf, inlen, outbuf, outlen)`; `w` is the
sending direction of `h->fd` and `stack` is as for `send_request`.  The result
is the return value, the contents of `outbuf` afterwards, the new state and the
connection afterwards. -/
def info_call (P : Proto) (L : Layout) (fuel : Nat) (h : cman_handle) (w : Outbound)
    (msgtype : Nat) (inbuf : Option (List Nat)) (inlen : Int) (outbuf : List Nat) (outlen : Int)
    (stack : List (List Nat)) : Option (Int × List Nat × cman_handle × Outbound) :=
  match send_request P L w h.errno msgtype inbuf inlen stack with
  | none => none
  | some (ret, errno1, w1) =>
    -- `size_t len = loopy_writev(...)`
    let len : Nat := size_t ret
    let h1 : cman_handle := { h with errno := errno1 }
    if (len : Int) < 0 then some (int32 len, outbuf, h1, w1)
    else
      match wait_for_reply P fuel h1 outbuf outlen with
      | none => none
      | some (ret1, out, h2) => some (ret1, out, h2, w1)

/-- Source `cman_send_data(handle, buf, len, flags, port, nodeid)` for a
non-`NULL` handle; `stack` is what lies behind the array `iov`. -/
def cman_send_data (P : Proto) (L : Layout) (h : cman_handle) (w : Outbound) (buf : List Nat)
    (len : Int) (flags : Nat) (port : Nat) (nodeid : Int) (stack : List (List Nat)) :
    Option (Int × cman_handle × Outbound) :=
  if h.magic ≠ P.CMAN_MAGIC then some (-1, { h with errno := EINVAL }, w)
  else
    let header := L.sock_data_header P.CMAN_MAGIC P.CMAN_CMD_DATA flags
      (uint32 (len + (P.sizeof_sock_data_header : Int))) nodeid port
    match loopy_writev w h.errno
        (header.take P.sizeof_sock_data_header :: buf.take (size_t len) :: stack) 2 with
    | none => none
    | some (ret, errno1, w1) => some (ret, { h with errno := errno1 }, w1)

/-- Modelled from the spec: the header layout of the instance `cnxman`: the
fields of the fixed header in the order protocol tag, command code, flags,
total length, then node id and port for data, each 32 bits little-endian. -/
def cnxman_layout : Layout where
  sock_header := fun magic command flags length =>
    bytes32 magic ++ bytes32 command ++ bytes32 flags ++ bytes32 length
  sock_data_header := fun magic command flags length nodeid port =>
    bytes32 magic ++ bytes32 command ++ bytes32 flags ++ bytes32 length ++
      bytes32 (uint32 nodeid) ++ bytes32 port

/-- A connection that takes whatever it is offered and has taken nothing yet. -/
def open_pipe : Outbound := { script := [], sent := [] }

/-- Every entry of the script is a write that takes at least one byte. -/
def all_room (script : List WChunk) : Prop :=
  ∀ c ∈ script, ∃ k, 0 < k ∧ c = WChunk.room k

/-- The first segment that `info_call` hands to `loopy_writev`: the bytes of
the request header. -/
def request_header (P : Proto) (L : Layout) (msgtype : Nat) (inlen : Int) : List Nat :=
  (L.sock_header P.CMAN_MAGIC msgtype 0 (uint32 ((P.sizeof_sock_header : Int) + inlen))).take
    P.sizeof_sock_header

/-- The array `iov` that `info_call` hands to `loopy_writev`: the request
header, followed by the first `inlen` bytes of `inbuf` unless that is `NULL`. -/
def request_segments (P : Proto) (L : Layout) (msgtype : Nat) (inbuf : Option (List Nat))
    (inlen : Int) : List (List Nat) :=
  request_header P L msgtype inlen ::
    (match inbuf with
     | some b => [b.take (size_t inlen)]
     | none => [])

/-- No `malloc` of the script fails. -/
def heap_ok (heap : List Bool) : Prop := ∀ b ∈ heap, b = true

/-! ## Basic facts about the library calls and the waitlist -/

theorem link_last_eq (this : List Nat) (m : List (List Nat)) : link_last this m = m ++ [this] := by
  induction m with
  | nil => rfl
  | cons a m ih => simp [link_last, ih]

theorem malloc_ok {heap : List Bool} (hh : heap_ok heap) :
    (malloc heap).1 = true ∧ heap_ok (malloc heap).2 := by
  cases heap with
  | nil => exact ⟨rfl, hh⟩
  | cons b rest =>
    refine ⟨hh b (List.mem_cons_self _ _), ?_⟩
    intro c hc
    exact hh c (List.mem_cons_of_mem _ hc)

theorem add_to_waitlist_errno_ok {heap : List Bool} (hh : heap_ok heap) (errno : Int) :
    add_to_waitlist_errno heap errno = errno := by
  have h1 := malloc_ok hh
  have h2 := malloc_ok h1.2
  unfold add_to_waitlist_errno
  rcases hm1 : malloc heap with ⟨b1, heap1⟩
  rw [hm1] at h1 h2
  rcases hm2 : malloc heap1 with ⟨b2, heap2⟩
  simp only at h1 h2
  rw [hm2] at h2
  simp only at h2
  obtain ⟨rfl, -⟩ := h1
  obtain ⟨rfl, -⟩ := h2
  simp only [hm2]

theorem add_to_waitlist_ok (P : Proto) {heap : List Bool} (hh : heap_ok heap)
    (m : List (List Nat)) (msg : List Nat) :
    (add_to_waitlist P heap m msg).2 = m ++ [msg.take (P.length msg)] ∧
      heap_ok (add_to_waitlist P heap m msg).1 := by
  have h1 := malloc_ok hh
  have h2 := malloc_ok h1.2
  unfold add_to_waitlist
  rcases hm1 : malloc heap with ⟨b1, heap1⟩
  rw [hm1] at h1 h2
  rcases hm2 : malloc heap1 with ⟨b2, heap2⟩
  simp only at h1 h2
  rw [hm2] at h2
  simp only at h2
  obtain ⟨rfl, -⟩ := h1
  obtain ⟨rfl, hk⟩ := h2
  simp [hm2, link_last_eq, memcpy, hk]

theorem int32_of_range {z : Int} (h1 : -(2 ^ 31) ≤ z) (h2 : z < 2 ^ 31) : int32 z = z := by
  unfold int32
  rw [Int.emod_eq_of_lt (by omega) (by omega)]
  omega

theorem uint32_of_range {z : Int} (h1 : 0 ≤ z) (h2 : z < 2 ^ 32) : uint32 z = z.toNat := by
  unfold uint32
  rw [Int.emod_eq_of_lt h1 h2]

theorem size_t_of_range {z : Int} (h1 : 0 ≤ z) (h2 : z < 2 ^ 64) : size_t z = z.toNat := by
  unfold size_t
  rw [Int.emod_eq_of_lt h1 h2]

/-! ## Reading one complete frame -/

theorem sys_read_unread (more : List Nat) (rest : List Chunk) (n : Nat) (nb : Bool) (e : Int) :
    sys_read (unread more rest) n nb e = sys_read (Chunk.bytes more :: rest) n nb e := by
  unfold unread
  by_cases hm : more = []
  · subst hm; simp [sys_read]
  · simp [hm]

theorem sys_read_whole (f more : List Nat) (rest : List Chunk) (nb : Bool) (e : Int)
    (hf : f ≠ []) :
    sys_read (Chunk.bytes (f ++ more) :: rest) f.length nb e =
      some ((f.length : Int), f, e, unread more rest) := by
  have hne : f ++ more ≠ [] := by simp [hf]
  unfold sys_read unread
  by_cases hm : more = []
  · subst hm; simp [hf]
  · simp [hf, hm]

theorem dispatch_read_frame (P : Proto) (hP : P.sane) (h : cman_handle) (flags : Nat)
    (f more : List Nat) (rest : List Chunk) (hf : Frame P f)
    (hs : h.sock = Chunk.bytes (f ++ more) :: rest) :
    dispatch_read P h flags =
      dispatch_classify P { h with sock := unread more rest } flags f (read_len P f) := by
  have hpos := hP.header_pos
  have hhd := hf.header
  have hfit := hf.fits
  have hpb : PIPE_BUF = 4096 := rfl
  have hsplit : f = f.take P.sizeof_sock_header ++ f.drop P.sizeof_sock_header :=
    (List.take_append_drop _ _).symm
  have htl : (f.take P.sizeof_sock_header).length = P.sizeof_sock_header := by
    simp [List.length_take]; omega
  have htne : f.take P.sizeof_sock_header ≠ [] := by
    intro h0; rw [h0] at htl; simp at htl; omega
  have hrd1 : sys_read h.sock P.sizeof_sock_header (decide (flags &&& P.CMAN_DISPATCH_BLOCKING = 0)) h.errno
      = some ((P.sizeof_sock_header : Int), f.take P.sizeof_sock_header, h.errno,
          unread (f.drop P.sizeof_sock_header ++ more) rest) := by
    rw [hs]
    have := sys_read_whole (f.take P.sizeof_sock_header) (f.drop P.sizeof_sock_header ++ more) rest
      (decide (flags &&& P.CMAN_DISPATCH_BLOCKING = 0)) h.errno htne
    rw [← List.append_assoc, List.take_append_drop, htl] at this
    exact this
  have hlen : P.length (f.take P.sizeof_sock_header) = f.length := by
    rw [hP.length_in_header, hf.complete]
  unfold dispatch_read
  simp only [hrd1]
  have hu : uint32 (P.sizeof_sock_header : Int) = P.sizeof_sock_header := by
    rw [uint32_of_range (by omega) (by omega)]; simp
  have hn0 : ¬ ((P.sizeof_sock_header : Int) = 0) := by omega
  have hn1 : ¬ ((P.sizeof_sock_header : Int) < 0) := by omega
  simp only [hn0, hn1, if_false, false_and, hu, hlen]
  by_cases heq : f.length = P.sizeof_sock_header
  · have hd : f.drop P.sizeof_sock_header = [] := by
      apply List.drop_eq_nil_of_le; omega
    have ht : f.take P.sizeof_sock_header = f := by
      apply List.take_of_length_le; omega
    simp [heq, hd, ht, read_len]
  · have hne : ¬ (P.sizeof_sock_header = f.length) := fun h0 => heq h0.symm
    have hu2 : uint32 ((f.length : Int) - (P.sizeof_sock_header : Int)) =
        (f.drop P.sizeof_sock_header).length := by
      rw [uint32_of_range (by omega) (by omega), List.length_drop]; omega
    have hdne : f.drop P.sizeof_sock_header ≠ [] := by
      intro h0
      have := congrArg List.length h0
      rw [List.length_drop] at this; simp at this; omega
    have hrd2 := sys_read_whole (f.drop P.sizeof_sock_header) more rest false h.errno hdne
    simp only [hne, if_true, ne_eq, not_false_eq_true, hu2, sys_read_unread, hrd2]
    have hn2 : ¬ (((f.drop P.sizeof_sock_header).length : Int) = 0) := by
      rw [List.length_drop]; omega
    have hn3 : ¬ (((f.drop P.sizeof_sock_header).length : Int) < 0) := by omega
    simp only [hn2, hn3, if_false, false_and, List.take_append_drop]
    simp [read_len, heq, List.length_drop]
    congr 1
    omega

/-! ## One pass of the dispatch loop -/

theorem dispatch_body_reply (P : Proto) (h : cman_handle) (flags : Nat) (m : List Nat)
    (q : List (List Nat)) (hq : h.saved_reply_msg = m :: q)
    (hf : flags &&& P.CMAN_DISPATCH_IGNORE_REPLY = 0) :
    dispatch_body P h flags =
      Step.next (int32 (P.length m))
        { (process_cman_message P h flags m).2 with
          saved_reply_msg := (process_cman_message P h flags m).2.saved_reply_msg.tail } := by
  unfold dispatch_body
  simp [hq, hf]

theorem dispatch_body_data (P : Proto) (h : cman_handle) (flags : Nat) (m : List Nat)
    (q : List (List Nat))
    (hr : h.saved_reply_msg = [] ∨ flags &&& P.CMAN_DISPATCH_IGNORE_REPLY ≠ 0)
    (hq : h.saved_data_msg = m :: q)
    (hf : flags &&& P.CMAN_DISPATCH_IGNORE_DATA = 0) :
    dispatch_body P h flags =
      Step.next (int32 (P.length m))
        { (process_cman_message P h flags m).2 with
          saved_data_msg := (process_cman_message P h flags m).2.saved_data_msg.tail } := by
  unfold dispatch_body
  rcases hr with hr | hr
  · simp [hr, hq, hf]
  · cases hrq : h.saved_reply_msg <;> simp [hr, hq, hf]

theorem dispatch_body_event (P : Proto) (h : cman_handle) (flags : Nat) (m : List Nat)
    (q : List (List Nat))
    (hr : h.saved_reply_msg = [] ∨ flags &&& P.CMAN_DISPATCH_IGNORE_REPLY ≠ 0)
    (hd : h.saved_data_msg = [] ∨ flags &&& P.CMAN_DISPATCH_IGNORE_DATA ≠ 0)
    (hq : h.saved_event_msg = m :: q)
    (hf : flags &&& P.CMAN_DISPATCH_IGNORE_EVENT = 0) :
    dispatch_body P h flags =
      Step.next (int32 (P.length m))
        { (process_cman_message P h flags m).2 with
          saved_event_msg := (process_cman_message P h flags m).2.saved_event_msg.tail } := by
  unfold dispatch_body
  cases hrq : h.saved_reply_msg <;> cases hdq : h.saved_data_msg <;>
    rcases hr with hr | hr <;> rcases hd with hd | hd <;> simp_all

theorem dispatch_body_idle (P : Proto) (h : cman_handle) (flags : Nat) (hi : idle P h flags) :
    dispatch_body P h flags = dispatch_read P h flags := by
  obtain ⟨hr, hd, he⟩ := hi
  unfold dispatch_body
  cases hrq : h.saved_reply_msg <;> cases hdq : h.saved_data_msg <;>
    cases heq : h.saved_event_msg <;>
    rcases hr with hr | hr <;> rcases hd with hd | hd <;> rcases he with he | he <;> simp_all

theorem cman_dispatch_next (P : Proto) (h h1 : cman_handle) (flags : Nat) (len : Int)
    (hm : h.magic = P.CMAN_MAGIC) (hb : dispatch_body P h flags = Step.next len h1)
    (hstop : ¬ (flags &&& P.CMAN_DISPATCH_ALL ≠ 0 ∧ (len < 0 ∧ h1.errno = EAGAIN))) :
    cman_dispatch P h flags = some (len, h1) := by
  unfold cman_dispatch
  simp only [hm, ne_eq, not_true_eq_false, if_false]
  unfold dispatch_loop
  simp only [hb]
  rw [if_neg hstop]

theorem cman_dispatch_brk (P : Proto) (h h1 : cman_handle) (flags : Nat) (len : Int)
    (hm : h.magic = P.CMAN_MAGIC) (hb : dispatch_body P h flags = Step.brk len h1) :
    cman_dispatch P h flags = some (len, h1) := by
  unfold cman_dispatch
  simp only [hm, ne_eq, not_true_eq_false, if_false]
  unfold dispatch_loop
  simp only [hb]

theorem cman_dispatch_ret (P : Proto) (h h1 : cman_handle) (flags : Nat) (v : Int)
    (hm : h.magic = P.CMAN_MAGIC) (hb : dispatch_body P h flags = Step.ret v h1) :
    cman_dispatch P h flags = some (v, h1) := by
  unfold cman_dispatch
  simp only [hm, ne_eq, not_true_eq_false, if_false]
  unfold dispatch_loop
  simp only [hb]

theorem read_len_pos (P : Proto) (hP : P.sane) (f : List Nat) (hf : Frame P f) :
    0 < read_len P f := by
  have := hP.header_pos
  have := hf.header
  unfold read_len
  split <;> omega

/-- Reading a whole frame with nothing due: the frame is classified once. -/
theorem cman_dispatch_frame (P : Proto) (hP : P.sane) (h : cman_handle) (flags : Nat)
    (f more : List Nat) (rest : List Chunk) (hm : h.magic = P.CMAN_MAGIC)
    (hi : idle P h flags) (hf : Frame P f) (hs : h.sock = Chunk.bytes (f ++ more) :: rest) :
    cman_dispatch P h flags =
      some (read_len P f,
        (process_cman_message P { h with sock := unread more rest } flags f).2) := by
  have hb := dispatch_body_idle P h flags hi
  rw [dispatch_read_frame P hP h flags f more rest hf hs] at hb
  have hpos := read_len_pos P hP f hf
  simp only [dispatch_classify] at hb
  by_cases hr : (process_cman_message P { h with sock := unread more rest } flags f).1 ≠ 0
  · rw [if_pos hr] at hb
    exact cman_dispatch_brk P h _ flags _ hm hb
  · rw [if_neg hr] at hb
    exact cman_dispatch_next P h _ flags _ hm hb (by omega)

/-! ## The cases of `process_cman_message` -/

theorem event_not_data_frame (P : Proto) (hP : P.sane) (f : List Nat) (he : is_event P f) :
    ¬ is_data P f := by
  unfold is_event at he
  unfold is_data
  rw [he]
  exact hP.event_not_data

theorem event_not_reply_frame (P : Proto) (hP : P.sane) (f : List Nat) (he : is_event P f) :
    ¬ is_reply P f := by
  unfold is_event at he
  unfold is_reply
  rw [he]
  simp [hP.event_not_reply]

theorem frame_take (P : Proto) (f : List Nat) (hf : Frame P f) : f.take (P.length f) = f := by
  apply List.take_of_length_le
  rw [hf.complete]

/-- A data frame under suppression of data: appended, nothing else. -/
theorem process_data_saved (P : Proto) (h : cman_handle) (flags : Nat) (f : List Nat)
    (hd : is_data P f) (hfl : flags &&& P.CMAN_DISPATCH_IGNORE_DATA ≠ 0) (hh : heap_ok h.heap) :
    process_cman_message P h flags f =
      (0, { h with heap := (add_to_waitlist P h.heap h.saved_data_msg f).1,
                   saved_data_msg := h.saved_data_msg ++ [f.take (P.length f)] }) := by
  unfold is_data at hd
  unfold process_cman_message
  simp only [hd, if_true, hfl, ne_eq, not_false_eq_true, (add_to_waitlist_ok P hh _ f).1,
    add_to_waitlist_errno_ok hh]

/-- An event frame under suppression of events: appended, nothing else. -/
theorem process_event_saved (P : Proto) (hP : P.sane) (h : cman_handle) (flags : Nat)
    (f : List Nat) (he : is_event P f)
    (hfl : flags &&& P.CMAN_DISPATCH_IGNORE_EVENT ≠ 0) (hh : heap_ok h.heap) :
    process_cman_message P h flags f =
      (0, { h with heap := (add_to_waitlist P h.heap h.saved_event_msg f).1,
                   saved_event_msg := h.saved_event_msg ++ [f.take (P.length f)] }) := by
  have hnd := event_not_data_frame P hP f he
  have hnr := event_not_reply_frame P hP f he
  unfold is_data at hnd
  unfold is_reply at hnr
  unfold is_event at he
  rw [he] at hnd hnr
  unfold process_cman_message
  simp only [hnd, if_false, hnr, false_and, he, if_true, hfl, ne_eq, not_false_eq_true,
    (add_to_waitlist_ok P hh _ f).1, add_to_waitlist_errno_ok hh]

/-- A frame of no category is dropped. -/
theorem process_other (P : Proto) (h : cman_handle) (flags : Nat) (f : List Nat)
    (hnd : ¬ is_data P f) (hnr : ¬ is_reply P f ∨ h.want_reply = 0) (hne : ¬ is_event P f) :
    process_cman_message P h flags f = (0, h) := by
  unfold is_data at hnd
  unfold is_reply at hnr
  unfold is_event at hne
  unfold process_cman_message
  have : ¬ (P.command f &&& P.CMAN_CMDFLAG_REPLY ≠ 0 ∧ h.want_reply ≠ 0) := by
    rintro ⟨h1, h2⟩
    rcases hnr with h3 | h3
    · exact h3 h1
    · exact h2 h3
  simp only [hnd, if_false, this, hne]

/-- A reply-flagged frame while a call is armed and replies are not
suppressed. -/
theorem process_reply (P : Proto) (h : cman_handle) (flags : Nat) (f : List Nat)
    (hnd : ¬ is_data P f) (hr : is_reply P f) (hw : h.want_reply ≠ 0)
    (hfl : flags &&& P.CMAN_DISPATCH_IGNORE_REPLY = 0) :
    process_cman_message P h flags f =
      (1, { h with
        reply_buffer :=
          if int32 ((P.length f : Int) - P.sizeof_sock_reply_header) ≤ h.reply_buflen then
            memcpy h.reply_buffer (f.drop P.sizeof_sock_reply_header)
              (size_t (int32 ((P.length f : Int) - P.sizeof_sock_reply_header)))
          else h.reply_buffer,
        want_reply := 0, reply_status := P.status f }) := by
  unfold is_data at hnd
  unfold is_reply at hr
  unfold process_cman_message
  simp only [hnd, if_false, hr, hw, ne_eq, not_false_eq_true, and_self, if_true, hfl,
    not_true_eq_false]
  split <;> rfl

/-! ## The loop of `wait_for_reply` -/

theorem idle_wait (P : Proto) (hP : P.sane) (h : cman_handle) (hq : h.saved_reply_msg = []) :
    idle P h (wait_flags P) :=
  ⟨Or.inl hq, Or.inr hP.wait_data, Or.inr hP.wait_event⟩

theorem wait_loop_succ (P : Proto) (fuel : Nat) (h h1 : cman_handle) (ret : Int)
    (hd : cman_dispatch P h (wait_flags P) = some (ret, h1)) :
    wait_loop P (fuel + 1) h =
      if h1.want_reply = 1 ∧ ret ≥ 0 then wait_loop P fuel h1 else some (ret, h1) := by
  unfold wait_flags at hd
  rw [wait_loop]
  simp only [hd]

/-- The whole wait: the frames `pre`, none of them consumed as a reply, are
followed by the reply `r`. -/
theorem wait_loop_frames (P : Proto) (hP : P.sane) (r : List Nat) (s1 : List Chunk)
    (hr : Frame P r) (hrd : ¬ is_data P r) (hrr : is_reply P r) (pre : List (List Nat)) :
    ∀ (h : cman_handle) (fuel : Nat),
      h.magic = P.CMAN_MAGIC → heap_ok h.heap → h.saved_reply_msg = [] → h.want_reply = 1 →
      (∀ f ∈ pre, Frame P f ∧ (is_data P f ∨ ¬ is_reply P f)) →
      Arrives (pre ++ [r]) h.sock s1 → pre.length + 1 ≤ fuel →
      ∃ heap1, heap_ok heap1 ∧
        wait_loop P fuel h = some (read_len P r,
          { h with
            sock := s1, heap := heap1,
            saved_data_msg := h.saved_data_msg ++ pre.filter (fun f => decide (is_data P f)),
            saved_event_msg := h.saved_event_msg ++ pre.filter (fun f => decide (is_event P f)),
            reply_buffer := reply_copy P h.reply_buffer h.reply_buflen r,
            want_reply := 0, reply_status := P.status r }) := by
  induction pre with
  | nil =>
    intro h fuel hm hh hq hw _ harr hfuel
    obtain ⟨more, rest, hs, hs1⟩ := harr
    simp only [Arrives] at hs1
    obtain ⟨k, rfl⟩ : ∃ k, fuel = k + 1 := ⟨fuel - 1, by simp at hfuel; omega⟩
    have hd := cman_dispatch_frame P hP h (wait_flags P) r more rest hm (idle_wait P hP h hq) hr hs
    rw [process_reply P { h with sock := unread more rest } (wait_flags P) r hrd hrr (by simp [hw]) hP.wait_reply] at hd
    dsimp only at hd
    refine ⟨h.heap, hh, ?_⟩
    rw [wait_loop_succ P k h _ _ hd]
    simp [reply_copy, hs1]
  | cons f pre ih =>
    intro h fuel hm hh hq hw hpre harr hfuel
    obtain ⟨more, rest, hs, harr1⟩ := harr
    obtain ⟨k, rfl⟩ : ∃ k, fuel = k + 1 := ⟨fuel - 1, by simp at hfuel; omega⟩
    have hf := hpre f (List.mem_cons_self _ _)
    have hpre1 : ∀ g ∈ pre, Frame P g ∧ (is_data P g ∨ ¬ is_reply P g) :=
      fun g hg => hpre g (List.mem_cons_of_mem _ hg)
    have hk : pre.length + 1 ≤ k := by simp at hfuel; omega
    have hpos := read_len_pos P hP f hf.1
    have hd := cman_dispatch_frame P hP h (wait_flags P) f more rest hm (idle_wait P hP h hq) hf.1 hs
    by_cases hfd : is_data P f
    · -- a data frame: saved
      have hne : ¬ is_event P f := fun he => event_not_data_frame P hP f he hfd
      rw [process_data_saved P { h with sock := unread more rest } (wait_flags P) f hfd
        hP.wait_data hh, frame_take P f hf.1] at hd
      dsimp only at hd
      have hok := (add_to_waitlist_ok P hh h.saved_data_msg f).2
      rw [wait_loop_succ P k h _ _ hd]
      rw [if_pos ⟨hw, le_of_lt hpos⟩]
      obtain ⟨heap1, hh1, hl⟩ := ih
        { h with sock := unread more rest,
                 heap := (add_to_waitlist P h.heap h.saved_data_msg f).1,
                 saved_data_msg := h.saved_data_msg ++ [f] } k hm hok hq hw hpre1 harr1 hk
      refine ⟨heap1, hh1, ?_⟩
      rw [hl]
      simp [hfd, hne]
    · have hnr : ¬ is_reply P f := by
        rcases hf.2 with h1 | h1
        · exact absurd h1 hfd
        · exact h1
      by_cases hfe : is_event P f
      · -- an event frame: saved
        rw [process_event_saved P hP { h with sock := unread more rest } (wait_flags P) f hfe hP.wait_event hh,
          frame_take P f hf.1] at hd
        dsimp only at hd
        have hok := (add_to_waitlist_ok P hh h.saved_event_msg f).2
        rw [wait_loop_succ P k h _ _ hd]
        rw [if_pos ⟨hw, le_of_lt hpos⟩]
        obtain ⟨heap1, hh1, hl⟩ := ih
          { h with sock := unread more rest,
                   heap := (add_to_waitlist P h.heap h.saved_event_msg f).1,
                   saved_event_msg := h.saved_event_msg ++ [f] } k hm hok hq hw hpre1 harr1 hk
        refine ⟨heap1, hh1, ?_⟩
        rw [hl]
        simp [hfd, hfe]
      · -- a frame of no category: dropped
        rw [process_other P { h with sock := unread more rest } (wait_flags P) f hfd (Or.inl hnr) hfe] at hd
        dsimp only at hd
        rw [wait_loop_succ P k h _ _ hd]
        rw [if_pos ⟨hw, le_of_lt hpos⟩]
        obtain ⟨heap1, hh1, hl⟩ := ih { h with sock := unread more rest } k hm hh hq hw hpre1
          harr1 hk
        refine ⟨heap1, hh1, ?_⟩
        rw [hl]
        simp [hfd, hfe]

/-! ## The whole of wait_for_reply -/

/-- The whole of `wait_for_reply` when the frames `pre`, none of them consumed
as a reply, are followed by the reply `r`. -/
theorem wait_for_reply_frames (P : Proto) (hP : P.sane) (h : cman_handle) (msg : List Nat)
    (max_len : Int) (pre : List (List Nat)) (r : List Nat) (s1 : List Chunk) (fuel : Nat)
    (hm : h.magic = P.CMAN_MAGIC) (hh : heap_ok h.heap) (hq : h.saved_reply_msg = [])
    (hpre : ∀ f ∈ pre, Frame P f ∧ (is_data P f ∨ ¬ is_reply P f))
    (hr : Frame P r) (hrd : ¬ is_data P r) (hrr : is_reply P r)
    (harr : Arrives (pre ++ [r]) h.sock s1) (hfuel : pre.length + 1 ≤ fuel) :
    ∃ heap1, heap_ok heap1 ∧
      wait_for_reply P fuel h msg max_len =
        some (status_result (P.status r), reply_copy P msg max_len r,
          { h with
            sock := s1, heap := heap1,
            saved_data_msg := h.saved_data_msg ++ pre.filter (fun f => decide (is_data P f)),
            saved_event_msg := h.saved_event_msg ++ pre.filter (fun f => decide (is_event P f)),
            reply_buffer := [], reply_buflen := 0,
            want_reply := 0, reply_status := P.status r,
            errno := if P.status r < 0 then int32 (-P.status r) else h.errno }) := by
  obtain ⟨heap1, hh1, hl⟩ := wait_loop_frames P hP r s1 hr hrd hrr pre
    { h with want_reply := 1, reply_buffer := msg, reply_buflen := max_len } fuel
    hm hh hq rfl hpre harr hfuel
  refine ⟨heap1, hh1, ?_⟩
  have hpos := read_len_pos P hP r hr
  unfold wait_for_reply
  simp only [hl]
  have hn : ¬ read_len P r < 0 := by omega
  simp only [hn, if_false]
  unfold status_result
  by_cases hs : P.status r < 0
  · simp only [hs, if_true]
  · simp only [hs, if_false]

/-! ## Claims about the synchronous call -/

theorem le32_take (b : List Nat) (n off : Nat) (h : off + 4 ≤ n) :
    le32 (b.take n) off = le32 b off := by
  unfold le32
  simp only [List.getD_eq_getElem?_getD, List.getElem?_take]
  have h0 : off < n := by omega
  have h1 : off + 1 < n := by omega
  have h2 : off + 2 < n := by omega
  have h3 : off + 3 < n := by omega
  simp [h0, h1, h2, h3]

theorem cnxman_sane : cnxman.sane where
  wait_data := by decide
  wait_event := by decide
  wait_reply := by decide
  event_not_data := by decide
  event_not_reply := by decide
  header_pos := by decide
  length_in_header := fun b => le32_take b 16 12 (by decide)

theorem frame_event_a : Frame cnxman event_a := ⟨by decide, by decide, by decide⟩

theorem frame_event_b : Frame cnxman event_b := ⟨by decide, by decide, by decide⟩

theorem frame_data_a : Frame cnxman data_a := ⟨by decide, by decide, by decide⟩

theorem frame_reply_ok : Frame cnxman reply_ok := ⟨by decide, by decide, by decide⟩

theorem frame_reply_err : Frame cnxman reply_err := ⟨by decide, by decide, by decide⟩

theorem reply_not_event (P : Proto) (hP : P.sane) (r : List Nat) (hrr : is_reply P r) :
    ¬ is_event P r := fun he => event_not_reply_frame P hP r he hrr

/-- C1: during one synchronous call, the frames read before the reply are
kept: the data list and the event list grow by copies of exactly the data
frames and the event frames of the sequence, in arrival order, and no callback
is invoked. -/
theorem wait_for_reply_keeps_traffic (P : Proto) (hP : P.sane) (h : cman_handle)
    (msg : List Nat) (max_len : Int) (pre : List (List Nat)) (r : List Nat) (s1 : List Chunk)
    (fuel : Nat)
    (hm : h.magic = P.CMAN_MAGIC) (hh : heap_ok h.heap) (hq : h.saved_reply_msg = [])
    (hpre : ∀ f ∈ pre, Frame P f ∧ (is_data P f ∨ ¬ is_reply P f))
    (hr : Frame P r) (hrd : ¬ is_data P r) (hrr : is_reply P r)
    (harr : Arrives (pre ++ [r]) h.sock s1) (hfuel : pre.length + 1 ≤ fuel) :
    ∃ ret out h1, wait_for_reply P fuel h msg max_len = some (ret, out, h1) ∧
      h1.saved_data_msg =
        h.saved_data_msg ++ (pre ++ [r]).filter (fun f => decide (is_data P f)) ∧
      h1.saved_event_msg =
        h.saved_event_msg ++ (pre ++ [r]).filter (fun f => decide (is_event P f)) ∧
      h1.calls = h.calls ∧ h1.sock = s1 := by
  obtain ⟨heap1, -, hw⟩ := wait_for_reply_frames P hP h msg max_len pre r s1 fuel hm hh hq hpre
    hr hrd hrr harr hfuel
  have hre := reply_not_event P hP r hrr
  refine ⟨_, _, _, hw, ?_, ?_, rfl, rfl⟩
  · simp [List.filter_append, hrd]
  · simp [List.filter_append, hre]

theorem wait_for_reply_keeps_traffic_witness :
    ∃ ret out h1,
      wait_for_reply cnxman 4
          (fresh [Chunk.bytes (event_a ++ data_a), Chunk.bytes event_b, Chunk.bytes reply_ok])
          (List.replicate 16 0) 16 = some (ret, out, h1) ∧
        h1.saved_data_msg =
          [] ++ ([event_a, data_a, event_b] ++ [reply_ok]).filter
            (fun f => decide (is_data cnxman f)) ∧
        h1.saved_event_msg =
          [] ++ ([event_a, data_a, event_b] ++ [reply_ok]).filter
            (fun f => decide (is_event cnxman f)) ∧
        h1.calls = [] ∧ h1.sock = [] :=
  wait_for_reply_keeps_traffic cnxman cnxman_sane
    (fresh [Chunk.bytes (event_a ++ data_a), Chunk.bytes event_b, Chunk.bytes reply_ok])
    (List.replicate 16 0) 16 [event_a, data_a, event_b] reply_ok [] 4 rfl
    (by intro b hb; cases hb) rfl
    (by
      intro f hf
      simp only [List.mem_cons, List.mem_singleton, List.not_mem_nil, or_false] at hf
      rcases hf with rfl | rfl | rfl
      · exact ⟨frame_event_a, Or.inr (by decide)⟩
      · exact ⟨frame_data_a, Or.inl (by decide)⟩
      · exact ⟨frame_event_b, Or.inr (by decide)⟩)
    frame_reply_ok (by decide) (by decide)
    ⟨data_a, _, rfl, [], _, rfl, [], _, rfl, [], _, rfl, rfl⟩
    (by decide)

/-- C2: the synchronous call returns the status word `s` of the first
consumed reply when `s >= 0`, and returns `-1` with `errno = -s` when `s < 0`
(for every `int` status that has a negation, that is `s > INT_MIN`). -/
theorem wait_for_reply_status (P : Proto) (hP : P.sane) (h : cman_handle)
    (msg : List Nat) (max_len : Int) (pre : List (List Nat)) (r : List Nat) (s1 : List Chunk)
    (fuel : Nat)
    (hm : h.magic = P.CMAN_MAGIC) (hh : heap_ok h.heap) (hq : h.saved_reply_msg = [])
    (hpre : ∀ f ∈ pre, Frame P f ∧ (is_data P f ∨ ¬ is_reply P f))
    (hr : Frame P r) (hrd : ¬ is_data P r) (hrr : is_reply P r)
    (harr : Arrives (pre ++ [r]) h.sock s1) (hfuel : pre.length + 1 ≤ fuel)
    (hmin : -(2 ^ 31) < P.status r) :
    (0 ≤ P.status r →
      ∃ out h1, wait_for_reply P fuel h msg max_len = some (P.status r, out, h1)) ∧
    (P.status r < 0 →
      ∃ out h1, wait_for_reply P fuel h msg max_len = some (-1, out, h1) ∧
        h1.errno = -P.status r) := by
  obtain ⟨heap1, -, hw⟩ := wait_for_reply_frames P hP h msg max_len pre r s1 fuel hm hh hq hpre
    hr hrd hrr harr hfuel
  constructor
  · intro hs
    have hn : ¬ P.status r < 0 := by omega
    have hsr : status_result (P.status r) = P.status r := by simp [status_result, hn]
    rw [hsr] at hw
    exact ⟨_, _, hw⟩
  · intro hs
    have hsr : status_result (P.status r) = -1 := by simp [status_result, hs]
    rw [hsr] at hw
    refine ⟨_, _, hw, ?_⟩
    simp only [hs, if_true]
    exact int32_of_range (by omega) (by omega)

theorem wait_for_reply_status_witness :
    ∃ out h1,
      wait_for_reply cnxman 2 (fresh [Chunk.bytes event_a, Chunk.bytes reply_err]) [] 0 =
        some (-1, out, h1) ∧ h1.errno = 22 :=
  (wait_for_reply_status cnxman cnxman_sane (fresh [Chunk.bytes event_a, Chunk.bytes reply_err])
    [] 0 [event_a] reply_err [] 2 rfl (by intro b hb; cases hb) rfl
    (by
      intro f hf
      simp only [List.mem_singleton] at hf
      subst hf
      exact ⟨frame_event_a, Or.inr (by decide)⟩)
    frame_reply_err (by decide) (by decide)
    ⟨[], _, rfl, [], _, rfl, rfl⟩ (by decide) (by decide)).2 (by decide)

theorem frame_length_int32 (P : Proto) (f : List Nat) (hf : Frame P f) :
    int32 (P.length f) = (f.length : Int) := by
  have hfit := hf.fits
  have hpb : PIPE_BUF = 4096 := rfl
  rw [← hf.complete]
  exact int32_of_range (by omega) (by omega)

/-- C3 (as the code has it): a reply whose payload is longer than the
destination capacity is not copied at all: the destination buffer is left as
it was, the status word is stored, the call is disarmed and the result says
that a reply was consumed. -/
theorem process_reply_oversized (P : Proto) (h : cman_handle) (flags : Nat) (f : List Nat)
    (hf : Frame P f) (hnd : ¬ is_data P f) (hr : is_reply P f) (hw : h.want_reply ≠ 0)
    (hfl : flags &&& P.CMAN_DISPATCH_IGNORE_REPLY = 0)
    (hhdr : P.sizeof_sock_reply_header ≤ f.length)
    (hbig : h.reply_buflen < ((f.drop P.sizeof_sock_reply_header).length : Int)) :
    process_cman_message P h flags f =
      (1, { h with want_reply := 0, reply_status := P.status f }) := by
  have hfit := hf.fits
  have hpb : PIPE_BUF = 4096 := rfl
  rw [List.length_drop] at hbig
  have hl : int32 ((P.length f : Int) - P.sizeof_sock_reply_header) =
      (f.length : Int) - P.sizeof_sock_reply_header := by
    rw [← hf.complete]
    exact int32_of_range (by omega) (by omega)
  rw [process_reply P h flags f hnd hr hw hfl, hl]
  have hgt : ¬ ((f.length : Int) - P.sizeof_sock_reply_header ≤ h.reply_buflen) := by omega
  rw [if_neg hgt]

theorem process_reply_oversized_witness :
    process_cman_message cnxman (armed [0, 0, 0, 0] 4) 0 reply_ok =
      (1, { armed [0, 0, 0, 0] 4 with want_reply := 0, reply_status := cnxman.status reply_ok }) :=
  process_reply_oversized cnxman (armed [0, 0, 0, 0] 4) 0 reply_ok frame_reply_ok (by decide)
    (by decide) (by decide) (by decide) (by decide) (by decide)

/-- C3 fails as stated: with capacity 4 and a payload of 8 bytes the first 4
bytes of the destination are not the first 4 bytes of the payload. -/
theorem reply_oversized_not_truncated :
    ¬ ((process_cman_message cnxman (armed [0, 0, 0, 0] 4) 0 reply_ok).2.reply_buffer.take 4 =
        (reply_ok.drop cnxman.sizeof_sock_reply_header).take 4) := by
  decide

/-- An event frame when events are not suppressed and a callback is
registered. -/
theorem process_event_called (P : Proto) (hP : P.sane) (h : cman_handle) (flags : Nat)
    (f : List Nat) (he : is_event P f)
    (hfl : flags &&& P.CMAN_DISPATCH_IGNORE_EVENT = 0) (hcb : h.event_callback = true) :
    process_cman_message P h flags f =
      (0, { h with calls := h.calls ++ [Upcall.event (P.reason f) (P.arg f)] }) := by
  have hnd := event_not_data_frame P hP f he
  have hnr := event_not_reply_frame P hP f he
  unfold is_data at hnd
  unfold is_reply at hnr
  unfold is_event at he
  rw [he] at hnd hnr
  unfold process_cman_message
  simp only [hnd, if_false, hnr, false_and, he, if_true, hfl, ne_eq, not_true_eq_false, hcb]

/-- C5 fails as stated: two events arrive during one call; the first dispatch
afterwards delivers the first of them, and the second, which also arrived
during the call, is still queued. -/
theorem second_event_not_first :
    ∃ ret out h1 ret2 h2,
      wait_for_reply cnxman 3
          (listening [Chunk.bytes event_a, Chunk.bytes event_b, Chunk.bytes reply_ok]) [] 0 =
        some (ret, out, h1) ∧
      h1.saved_reply_msg = [] ∧ h1.saved_data_msg = [] ∧
      cman_dispatch cnxman h1 0 = some (ret2, h2) ∧
      h2.calls = [Upcall.event (cnxman.reason event_a) (cnxman.arg event_a)] ∧
      Upcall.event (cnxman.reason event_b) (cnxman.arg event_b) ∉ h2.calls ∧
      h2.saved_event_msg = [event_b] :=
  ⟨_, _, _, _, _, rfl, rfl, rfl, rfl, rfl, by decide, rfl⟩

theorem filter_eq_nil_of_none {α : Type} (p : α → Prop) [DecidablePred p] (l : List α)
    (h : ∀ x ∈ l, ¬ p x) : l.filter (fun x => decide (p x)) = [] := by
  rw [List.filter_eq_nil_iff]
  intro x hx
  simpa using h x hx

/-- The head of the event list is delivered to the registered callback when
nothing of higher priority is due. -/
theorem cman_dispatch_event_head (P : Proto) (hP : P.sane) (h : cman_handle) (flags : Nat)
    (e : List Nat) (q : List (List Nat)) (hm : h.magic = P.CMAN_MAGIC)
    (hr : h.saved_reply_msg = [] ∨ flags &&& P.CMAN_DISPATCH_IGNORE_REPLY ≠ 0)
    (hd : h.saved_data_msg = [] ∨ flags &&& P.CMAN_DISPATCH_IGNORE_DATA ≠ 0)
    (hq : h.saved_event_msg = e :: q)
    (hfl : flags &&& P.CMAN_DISPATCH_IGNORE_EVENT = 0) (hcb : h.event_callback = true)
    (he : is_event P e) (hlen : 0 ≤ int32 (P.length e)) :
    cman_dispatch P h flags =
      some (int32 (P.length e),
        { h with calls := h.calls ++ [Upcall.event (P.reason e) (P.arg e)],
                 saved_event_msg := q }) := by
  have hb := dispatch_body_event P h flags e q hr hd hq hfl
  rw [process_event_called P hP h flags e he hfl hcb] at hb
  dsimp only at hb
  rw [hq] at hb
  exact cman_dispatch_next P h _ flags _ hm hb (by omega)

/-- C5 (amended): an event frame that arrives during a blocking call with no
earlier event still queued ahead of it is appended to the event list, and
after the call the first dispatch with events unsuppressed invokes the event
callback exactly once, with the frame's reason and argument, and removes the
frame from the list. -/
theorem queued_event_delivered_once (P : Proto) (hP : P.sane) (h : cman_handle)
    (msg : List Nat) (max_len : Int) (pre1 pre2 : List (List Nat)) (e r : List Nat)
    (s1 : List Chunk) (fuel flags : Nat)
    (hm : h.magic = P.CMAN_MAGIC) (hh : heap_ok h.heap) (hq : h.saved_reply_msg = [])
    (hdq : h.saved_data_msg = []) (heq : h.saved_event_msg = [])
    (hcb : h.event_callback = true)
    (hpre : ∀ f ∈ pre1 ++ e :: pre2, Frame P f ∧ ¬ is_data P f ∧ ¬ is_reply P f)
    (hpre1 : ∀ f ∈ pre1, ¬ is_event P f) (he : is_event P e)
    (hr : Frame P r) (hrd : ¬ is_data P r) (hrr : is_reply P r)
    (harr : Arrives ((pre1 ++ e :: pre2) ++ [r]) h.sock s1)
    (hfuel : (pre1 ++ e :: pre2).length + 1 ≤ fuel)
    (hfl : flags &&& P.CMAN_DISPATCH_IGNORE_EVENT = 0) :
    ∃ ret out h1 h2,
      wait_for_reply P fuel h msg max_len = some (ret, out, h1) ∧
      h1.saved_event_msg = e :: pre2.filter (fun f => decide (is_event P f)) ∧
      h1.calls = h.calls ∧
      cman_dispatch P h1 flags = some (int32 (P.length e), h2) ∧
      h2.calls = h.calls ++ [Upcall.event (P.reason e) (P.arg e)] ∧
      h2.saved_event_msg = pre2.filter (fun f => decide (is_event P f)) := by
  obtain ⟨heap1, -, hw⟩ := wait_for_reply_frames P hP h msg max_len (pre1 ++ e :: pre2) r s1
    fuel hm hh hq (fun f hf => ⟨(hpre f hf).1, Or.inr (hpre f hf).2.2⟩) hr hrd hrr harr hfuel
  have hnodata : (pre1 ++ e :: pre2).filter (fun f => decide (is_data P f)) = [] :=
    filter_eq_nil_of_none (is_data P) _ (fun f hf => (hpre f hf).2.1)
  have hnoev : pre1.filter (fun f => decide (is_event P f)) = [] :=
    filter_eq_nil_of_none (is_event P) _ hpre1
  have hev : (pre1 ++ e :: pre2).filter (fun f => decide (is_event P f)) =
      e :: pre2.filter (fun f => decide (is_event P f)) := by
    rw [List.filter_append, hnoev, List.nil_append, List.filter_cons_of_pos (by simpa using he)]
  rw [hnodata, hev, hdq, heq, hq] at hw
  simp only [List.nil_append] at hw
  have hfe : Frame P e := (hpre e (by simp)).1
  have hlen : int32 (P.length e) = (e.length : Int) := frame_length_int32 P e hfe
  have hd := cman_dispatch_event_head P hP
    { h with
      sock := s1, heap := heap1, saved_data_msg := [],
      saved_event_msg := e :: pre2.filter (fun f => decide (is_event P f)),
      saved_reply_msg := [],
      reply_buffer := [], reply_buflen := 0, want_reply := 0, reply_status := P.status r,
      errno := if P.status r < 0 then int32 (-P.status r) else h.errno }
    flags e (pre2.filter (fun f => decide (is_event P f))) hm (Or.inl rfl) (Or.inl rfl) rfl hfl
    hcb he (by rw [hlen]; omega)
  exact ⟨_, _, _, _, hw, rfl, rfl, hd, rfl, rfl⟩

theorem queued_event_delivered_once_witness :
    ∃ ret out h1 h2,
      wait_for_reply cnxman 3
          (listening [Chunk.bytes event_a, Chunk.bytes event_b, Chunk.bytes reply_ok]) [] 0 =
        some (ret, out, h1) ∧
      h1.saved_event_msg = event_a :: [event_b].filter (fun f => decide (is_event cnxman f)) ∧
      h1.calls = [] ∧
      cman_dispatch cnxman h1 0 = some (int32 (cnxman.length event_a), h2) ∧
      h2.calls = [] ++ [Upcall.event (cnxman.reason event_a) (cnxman.arg event_a)] ∧
      h2.saved_event_msg = [event_b].filter (fun f => decide (is_event cnxman f)) :=
  queued_event_delivered_once cnxman cnxman_sane
    (listening [Chunk.bytes event_a, Chunk.bytes event_b, Chunk.bytes reply_ok]) [] 0
    [] [event_b] event_a reply_ok [] 3 0 rfl (by intro b hb; cases hb) rfl rfl rfl rfl
    (by
      intro f hf
      simp only [List.nil_append, List.mem_cons, List.mem_singleton, List.not_mem_nil,
        or_false] at hf
      rcases hf with rfl | rfl
      · exact ⟨frame_event_a, by decide, by decide⟩
      · exact ⟨frame_event_b, by decide, by decide⟩)
    (by intro f hf; cases hf) (by decide) frame_reply_ok (by decide) (by decide)
    ⟨[], _, rfl, [], _, rfl, [], _, rfl, rfl⟩ (by decide) (by decide)

/-! ## Saved messages leave at the head and arrive at the tail -/

theorem fifo_change_refl (s : Prop) (q : List (List Nat)) : fifo_change s q q :=
  ⟨fun _ => List.prefix_refl q, fun _ => List.suffix_refl q⟩

theorem fifo_change_trans {s : Prop} {q q1 q2 : List (List Nat)} (h1 : fifo_change s q q1)
    (h2 : fifo_change s q1 q2) : fifo_change s q q2 :=
  ⟨fun hs => (h1.1 hs).trans (h2.1 hs), fun hs => (h2.2 hs).trans (h1.2 hs)⟩

theorem fifo_change_tail {s : Prop} {q q1 : List (List Nat)} (h1 : fifo_change s q q1)
    (hs : ¬ s) : fifo_change s q q1.tail :=
  ⟨fun h => absurd h hs, fun _ => (List.tail_suffix q1).trans (h1.2 hs)⟩

theorem queues_fifo_refl (P : Proto) (flags : Nat) (h : cman_handle) : queues_fifo P flags h h :=
  ⟨fifo_change_refl _ _, fifo_change_refl _ _, fifo_change_refl _ _⟩

theorem queues_fifo_trans {P : Proto} {flags : Nat} {h h1 h2 : cman_handle}
    (a : queues_fifo P flags h h1) (b : queues_fifo P flags h1 h2) : queues_fifo P flags h h2 :=
  ⟨fifo_change_trans a.1 b.1, fifo_change_trans a.2.1 b.2.1, fifo_change_trans a.2.2 b.2.2⟩

theorem add_to_waitlist_cases (P : Proto) (heap : List Bool) (m : List (List Nat))
    (msg : List Nat) :
    (add_to_waitlist P heap m msg).2 = m ∨
      (add_to_waitlist P heap m msg).2 = m ++ [msg.take (P.length msg)] := by
  unfold add_to_waitlist
  rcases malloc heap with ⟨b1, heap1⟩
  cases b1
  · exact Or.inl rfl
  · dsimp only
    rcases malloc heap1 with ⟨b2, heap2⟩
    cases b2
    · exact Or.inl rfl
    · right
      simp [link_last_eq, memcpy]

theorem fifo_change_add (P : Proto) (s : Prop) (hs : s) (heap : List Bool)
    (m : List (List Nat)) (msg : List Nat) :
    fifo_change s m (add_to_waitlist P heap m msg).2 := by
  refine ⟨fun _ => ?_, fun h => absurd hs h⟩
  rcases add_to_waitlist_cases P heap m msg with h1 | h1 <;> rw [h1]
  exact List.prefix_append _ _

/-- The message classifier changes nothing but the lists, the call state, the
malloc script, `errno` (after a failed `malloc`) and the callback log. -/
theorem process_frame_env (P : Proto) (h : cman_handle) (flags : Nat) (f : List Nat) :
    (process_cman_message P h flags f).2.sock = h.sock ∧
      (process_cman_message P h flags f).2.magic = h.magic := by
  unfold process_cman_message
  by_cases hc : int32 ((P.length f : Int) - P.sizeof_sock_reply_header) ≤ h.reply_buflen
  all_goals
    simp only [hc, if_true, if_false]
    split_ifs <;> exact ⟨rfl, rfl⟩

theorem process_fifo (P : Proto) (h : cman_handle) (flags : Nat) (f : List Nat) :
    queues_fifo P flags h (process_cman_message P h flags f).2 := by
  unfold process_cman_message
  by_cases hc : int32 ((P.length f : Int) - P.sizeof_sock_reply_header) ≤ h.reply_buflen
  all_goals
    simp only [hc, if_true, if_false]
    split_ifs
    all_goals first
      | exact queues_fifo_refl P flags h
      | (refine ⟨?_, ?_, ?_⟩ <;> first
          | exact fifo_change_refl _ _
          | exact fifo_change_add P _ (by assumption) _ _ _)

/-- Where the reading part of the loop body can end: with only the connection
and `errno` changed, or with one buffer classified after that. -/
theorem dispatch_read_state (P : Proto) (h h1 : cman_handle) (flags : Nat)
    (hs : (dispatch_read P h flags).state? = some h1) :
    (∃ s e, h1 = { h with sock := s, errno := e }) ∨
      (∃ s e buf, h1 = (process_cman_message P { h with sock := s, errno := e } flags buf).2) := by
  unfold dispatch_read at hs
  rcases hr1 : sys_read h.sock P.sizeof_sock_header
      (decide (flags &&& P.CMAN_DISPATCH_BLOCKING = 0)) h.errno with _ | ⟨len, buf, e1, s1⟩
  · simp [hr1, Step.state?] at hs
  · simp only [hr1] at hs
    split_ifs at hs with c1 c2 c3 c4
    · simp only [Step.state?, Option.some.injEq] at hs
      exact Or.inl ⟨s1, EHOSTDOWN, hs.symm⟩
    · simp only [Step.state?, Option.some.injEq] at hs
      exact Or.inl ⟨s1, e1, hs.symm⟩
    · simp only [Step.state?, Option.some.injEq] at hs
      exact Or.inl ⟨s1, e1, hs.symm⟩
    · rcases hr2 : sys_read s1 (uint32 ((P.length buf : Int) - len)) false e1
        with _ | ⟨len2, rest, e2, s2⟩
      · simp [hr2, Step.state?] at hs
      · simp only [hr2] at hs
        split_ifs at hs with d1 d2 d3
        · simp only [Step.state?, Option.some.injEq] at hs
          exact Or.inl ⟨s2, EHOSTDOWN, hs.symm⟩
        · simp only [Step.state?, Option.some.injEq] at hs
          exact Or.inl ⟨s2, e2, hs.symm⟩
        · simp only [Step.state?, Option.some.injEq] at hs
          exact Or.inl ⟨s2, e2, hs.symm⟩
        · unfold dispatch_classify at hs
          dsimp only at hs
          split_ifs at hs <;>
            (simp only [Step.state?, Option.some.injEq] at hs
             exact Or.inr ⟨s2, e2, buf ++ rest, hs.symm⟩)
    · unfold dispatch_classify at hs
      dsimp only at hs
      split_ifs at hs <;>
        (simp only [Step.state?, Option.some.injEq] at hs
         exact Or.inr ⟨s1, e1, buf, hs.symm⟩)

theorem dispatch_read_fifo (P : Proto) (h h1 : cman_handle) (flags : Nat)
    (hs : (dispatch_read P h flags).state? = some h1) : queues_fifo P flags h h1 := by
  rcases dispatch_read_state P h h1 flags hs with ⟨s, e, rfl⟩ | ⟨s, e, buf, rfl⟩
  · exact queues_fifo_refl P flags h
  · exact process_fifo P { h with sock := s, errno := e } flags buf

theorem dispatch_body_fifo (P : Proto) (h h1 : cman_handle) (flags : Nat)
    (hs : (dispatch_body P h flags).state? = some h1) : queues_fifo P flags h h1 := by
  by_cases hr : h.saved_reply_msg = [] ∨ flags &&& P.CMAN_DISPATCH_IGNORE_REPLY ≠ 0
  · by_cases hd : h.saved_data_msg = [] ∨ flags &&& P.CMAN_DISPATCH_IGNORE_DATA ≠ 0
    · by_cases he : h.saved_event_msg = [] ∨ flags &&& P.CMAN_DISPATCH_IGNORE_EVENT ≠ 0
      · rw [dispatch_body_idle P h flags ⟨hr, hd, he⟩] at hs
        exact dispatch_read_fifo P h h1 flags hs
      · rw [not_or, not_not] at he
        obtain ⟨m, q, hq⟩ := List.exists_cons_of_ne_nil he.1
        rw [dispatch_body_event P h flags m q hr hd hq he.2] at hs
        simp only [Step.state?, Option.some.injEq] at hs
        subst hs
        have hp := process_fifo P h flags m
        exact ⟨hp.1, hp.2.1, fifo_change_tail hp.2.2 (by simp [he.2])⟩
    · rw [not_or, not_not] at hd
      obtain ⟨m, q, hq⟩ := List.exists_cons_of_ne_nil hd.1
      rw [dispatch_body_data P h flags m q hr hq hd.2] at hs
      simp only [Step.state?, Option.some.injEq] at hs
      subst hs
      have hp := process_fifo P h flags m
      exact ⟨hp.1, fifo_change_tail hp.2.1 (by simp [hd.2]), hp.2.2⟩
  · rw [not_or, not_not] at hr
    obtain ⟨m, q, hq⟩ := List.exists_cons_of_ne_nil hr.1
    rw [dispatch_body_reply P h flags m q hq hr.2] at hs
    simp only [Step.state?, Option.some.injEq] at hs
    subst hs
    have hp := process_fifo P h flags m
    exact ⟨fifo_change_tail hp.1 (by simp [hr.2]), hp.2.1, hp.2.2⟩

theorem dispatch_loop_fifo (P : Proto) (flags : Nat) (fuel : Nat) :
    ∀ (h h1 : cman_handle) (ret : Int),
      dispatch_loop P fuel h flags = some (ret, h1) → queues_fifo P flags h h1 := by
  induction fuel with
  | zero => intro h h1 ret hd; simp [dispatch_loop] at hd
  | succ n ih =>
    intro h h1 ret hd
    rw [dispatch_loop] at hd
    rcases hb : dispatch_body P h flags with ⟨len, h2⟩ | ⟨len, h2⟩ | ⟨v, h2⟩ | _
    · have hf := dispatch_body_fifo P h h2 flags (by rw [hb]; rfl)
      simp only [hb] at hd
      split_ifs at hd
      · exact queues_fifo_trans hf (ih h2 h1 ret hd)
      · simp only [Option.some.injEq, Prod.mk.injEq] at hd
        rw [← hd.2]; exact hf
    · have hf := dispatch_body_fifo P h h2 flags (by rw [hb]; rfl)
      simp only [hb, Option.some.injEq, Prod.mk.injEq] at hd
      rw [← hd.2]; exact hf
    · have hf := dispatch_body_fifo P h h2 flags (by rw [hb]; rfl)
      simp only [hb, Option.some.injEq, Prod.mk.injEq] at hd
      rw [← hd.2]; exact hf
    · simp [hb] at hd

theorem cman_dispatch_fifo (P : Proto) (h h1 : cman_handle) (flags : Nat) (ret : Int)
    (hd : cman_dispatch P h flags = some (ret, h1)) : queues_fifo P flags h h1 := by
  unfold cman_dispatch at hd
  split_ifs at hd
  · simp only [Option.some.injEq, Prod.mk.injEq] at hd
    rw [← hd.2]
    exact queues_fifo_refl P flags h
  · exact dispatch_loop_fifo P flags _ h h1 ret hd

/-- C6: `add_to_waitlist` appends to the list one new entry holding the first
`msg->length` bytes of the frame, and `cman_dispatch` takes entries away at
the head only: a list that the call may drain ends as a suffix of what it was,
and a list that the call may add to keeps what it had as a prefix. -/
theorem waitlist_fifo (P : Proto) (heap : List Bool) (q : List (List Nat)) (f : List Nat)
    (hh : heap_ok heap) (h h1 : cman_handle) (flags : Nat) (ret : Int)
    (hd : cman_dispatch P h flags = some (ret, h1)) :
    (add_to_waitlist P heap q f).2 = q ++ [f.take (P.length f)] ∧
    (flags &&& P.CMAN_DISPATCH_IGNORE_REPLY = 0 → h1.saved_reply_msg <:+ h.saved_reply_msg) ∧
    (flags &&& P.CMAN_DISPATCH_IGNORE_DATA = 0 → h1.saved_data_msg <:+ h.saved_data_msg) ∧
    (flags &&& P.CMAN_DISPATCH_IGNORE_EVENT = 0 → h1.saved_event_msg <:+ h.saved_event_msg) ∧
    (flags &&& P.CMAN_DISPATCH_IGNORE_REPLY ≠ 0 → h.saved_reply_msg <+: h1.saved_reply_msg) ∧
    (flags &&& P.CMAN_DISPATCH_IGNORE_DATA ≠ 0 → h.saved_data_msg <+: h1.saved_data_msg) ∧
    (flags &&& P.CMAN_DISPATCH_IGNORE_EVENT ≠ 0 → h.saved_event_msg <+: h1.saved_event_msg) := by
  obtain ⟨hr, hdq, he⟩ := cman_dispatch_fifo P h h1 flags ret hd
  exact ⟨(add_to_waitlist_ok P hh q f).1,
    fun hf => hr.2 (by simp [hf]), fun hf => hdq.2 (by simp [hf]), fun hf => he.2 (by simp [hf]),
    hr.1, hdq.1, he.1⟩

theorem waitlist_fifo_witness :
    (add_to_waitlist cnxman [] [event_a] data_a).2 =
        [event_a] ++ [data_a.take (cnxman.length data_a)] ∧
    (0 &&& cnxman.CMAN_DISPATCH_IGNORE_REPLY = 0 →
      ({ backlog [event_b] with
          calls := [Upcall.event 1 10] } : cman_handle).saved_reply_msg <:+
        (backlog [event_a, event_b]).saved_reply_msg) ∧
    (0 &&& cnxman.CMAN_DISPATCH_IGNORE_DATA = 0 →
      ({ backlog [event_b] with
          calls := [Upcall.event 1 10] } : cman_handle).saved_data_msg <:+
        (backlog [event_a, event_b]).saved_data_msg) ∧
    (0 &&& cnxman.CMAN_DISPATCH_IGNORE_EVENT = 0 →
      ({ backlog [event_b] with
          calls := [Upcall.event 1 10] } : cman_handle).saved_event_msg <:+
        (backlog [event_a, event_b]).saved_event_msg) ∧
    (0 &&& cnxman.CMAN_DISPATCH_IGNORE_REPLY ≠ 0 →
      (backlog [event_a, event_b]).saved_reply_msg <+:
        ({ backlog [event_b] with calls := [Upcall.event 1 10] } : cman_handle).saved_reply_msg) ∧
    (0 &&& cnxman.CMAN_DISPATCH_IGNORE_DATA ≠ 0 →
      (backlog [event_a, event_b]).saved_data_msg <+:
        ({ backlog [event_b] with calls := [Upcall.event 1 10] } : cman_handle).saved_data_msg) ∧
    (0 &&& cnxman.CMAN_DISPATCH_IGNORE_EVENT ≠ 0 →
      (backlog [event_a, event_b]).saved_event_msg <+:
        ({ backlog [event_b] with calls := [Upcall.event 1 10] } : cman_handle).saved_event_msg) :=
  waitlist_fifo cnxman [] [event_a] data_a (by intro b hb; cases hb)
    (backlog [event_a, event_b]) { backlog [event_b] with calls := [Upcall.event 1 10] } 0 24
    (by decide)

/-- A message whose category is not suppressed leaves the three lists as they
are. -/
theorem process_due_queues (P : Proto) (h : cman_handle) (flags : Nat) (m : List Nat)
    (hd : is_data P m → flags &&& P.CMAN_DISPATCH_IGNORE_DATA = 0)
    (hr : ¬ is_data P m → is_reply P m → flags &&& P.CMAN_DISPATCH_IGNORE_REPLY = 0)
    (he : ¬ is_data P m → is_event P m → flags &&& P.CMAN_DISPATCH_IGNORE_EVENT = 0) :
    (process_cman_message P h flags m).2.saved_reply_msg = h.saved_reply_msg ∧
      (process_cman_message P h flags m).2.saved_data_msg = h.saved_data_msg ∧
      (process_cman_message P h flags m).2.saved_event_msg = h.saved_event_msg := by
  unfold is_data at hd hr he
  unfold is_reply at hr
  unfold is_event at he
  unfold process_cman_message
  by_cases hc : int32 ((P.length m : Int) - P.sizeof_sock_reply_header) ≤ h.reply_buflen
  all_goals
    simp only [hc, if_true, if_false]
    split_ifs with c1 c2 c3 c4 c5 c6 c7 c8
    all_goals first
      | exact ⟨rfl, rfl, rfl⟩
      | exact absurd (hd c1) c2
      | exact absurd (hr c1 c4.1) c5
      | exact absurd (he c1 c6) c7

/-! ## Priority among the lists -/

theorem int32_length_nonneg (n : Nat) (hn : n < 2 ^ 31) : int32 (n : Int) = n :=
  int32_of_range (by omega) (by omega)

/-- A pass that drains a saved message is the only pass when the drain-all
flag is absent or the `length` field of the message is a non-negative `int`. -/
theorem cman_dispatch_drain (P : Proto) (h h1 : cman_handle) (flags : Nat) (m : List Nat)
    (hm : h.magic = P.CMAN_MAGIC)
    (hb : dispatch_body P h flags = Step.next (int32 (P.length m)) h1)
    (hstop : flags &&& P.CMAN_DISPATCH_ALL = 0 ∨ P.length m < 2 ^ 31) :
    cman_dispatch P h flags = some (int32 (P.length m), h1) := by
  apply cman_dispatch_next P h h1 flags _ hm hb
  rintro ⟨ha, hneg, -⟩
  rcases hstop with hs | hs
  · exact ha hs
  · rw [int32_length_nonneg _ hs] at hneg
    omega

/-- C7: with saved messages due in more than one list, `cman_dispatch` serves
the reply list before the data list and the data list before the event list:
it removes the head of the first list, in that order, that is not empty and
not suppressed, and leaves the other two lists as they are. -/
theorem dispatch_priority (P : Proto) (hP : P.sane) (h : cman_handle) (flags : Nat)
    (hm : h.magic = P.CMAN_MAGIC) (ht : queues_typed P h) :
    (∀ m q, h.saved_reply_msg = m :: q → flags &&& P.CMAN_DISPATCH_IGNORE_REPLY = 0 →
      ∃ h1, cman_dispatch P h flags = some (int32 (P.length m), h1) ∧
        h1.saved_reply_msg = q ∧ h1.saved_data_msg = h.saved_data_msg ∧
        h1.saved_event_msg = h.saved_event_msg) ∧
    (∀ m q, (h.saved_reply_msg = [] ∨ flags &&& P.CMAN_DISPATCH_IGNORE_REPLY ≠ 0) →
      h.saved_data_msg = m :: q → flags &&& P.CMAN_DISPATCH_IGNORE_DATA = 0 →
      ∃ h1, cman_dispatch P h flags = some (int32 (P.length m), h1) ∧
        h1.saved_data_msg = q ∧ h1.saved_reply_msg = h.saved_reply_msg ∧
        h1.saved_event_msg = h.saved_event_msg) ∧
    (∀ m q, (h.saved_reply_msg = [] ∨ flags &&& P.CMAN_DISPATCH_IGNORE_REPLY ≠ 0) →
      (h.saved_data_msg = [] ∨ flags &&& P.CMAN_DISPATCH_IGNORE_DATA ≠ 0) →
      h.saved_event_msg = m :: q → flags &&& P.CMAN_DISPATCH_IGNORE_EVENT = 0 →
      ∃ h1, cman_dispatch P h flags = some (int32 (P.length m), h1) ∧
        h1.saved_event_msg = q ∧ h1.saved_reply_msg = h.saved_reply_msg ∧
        h1.saved_data_msg = h.saved_data_msg) := by
  refine ⟨?_, ?_, ?_⟩
  · intro m q hq hf
    obtain ⟨⟨hnd, hr⟩, hlen⟩ := ht.reply m (by rw [hq]; exact List.mem_cons_self _ _)
    have hb := dispatch_body_reply P h flags m q hq hf
    have hd := cman_dispatch_drain P h _ flags m hm hb (Or.inr hlen)
    obtain ⟨h1, h2, h3⟩ := process_due_queues P h flags m (fun c => absurd c hnd)
      (fun _ _ => hf) (fun _ c => absurd hr (event_not_reply_frame P hP m c))
    refine ⟨_, hd, ?_, h2, h3⟩
    dsimp only
    rw [h1, hq]; rfl
  · intro m q hr hq hf
    obtain ⟨hdm, hlen⟩ := ht.data m (by rw [hq]; exact List.mem_cons_self _ _)
    have hb := dispatch_body_data P h flags m q hr hq hf
    have hd := cman_dispatch_drain P h _ flags m hm hb (Or.inr hlen)
    obtain ⟨h1, h2, h3⟩ := process_due_queues P h flags m (fun _ => hf)
      (fun c => absurd hdm c) (fun c => absurd hdm c)
    refine ⟨_, hd, ?_, h1, h3⟩
    dsimp only
    rw [h2, hq]; rfl
  · intro m q hr hdq hq hf
    obtain ⟨⟨hnd, he⟩, hlen⟩ := ht.event m (by rw [hq]; exact List.mem_cons_self _ _)
    have hb := dispatch_body_event P h flags m q hr hdq hq hf
    have hd := cman_dispatch_drain P h _ flags m hm hb (Or.inr hlen)
    obtain ⟨h1, h2, h3⟩ := process_due_queues P h flags m (fun c => absurd c hnd)
      (fun _ c => absurd c (event_not_reply_frame P hP m he)) (fun _ _ => hf)
    refine ⟨_, hd, ?_, h1, h2⟩
    dsimp only
    rw [h3, hq]; rfl

theorem add_to_waitlist_mem (P : Proto) (heap : List Bool) (q : List (List Nat)) (f : List Nat)
    (pred : List Nat → Prop) (hq : ∀ m ∈ q, pred m) (hf : pred (f.take (P.length f))) :
    ∀ m ∈ (add_to_waitlist P heap q f).2, pred m := by
  intro m hmem
  rcases add_to_waitlist_cases P heap q f with h1 | h1 <;> rw [h1] at hmem
  · exact hq m hmem
  · rcases List.mem_append.mp hmem with h2 | h2
    · exact hq m h2
    · rw [List.mem_singleton] at h2
      rw [h2]; exact hf

/-- The invariant of the lists holds when a session is opened and is kept by
the classification of every complete frame. -/
theorem queues_typed_process (P : Proto) (h : cman_handle) (flags : Nat) (f : List Nat)
    (ht : queues_typed P h) (hf : Frame P f) :
    queues_typed P (process_cman_message P h flags f).2 := by
  have hfit := hf.fits
  have hpb : PIPE_BUF = 4096 := rfl
  have hlen : P.length f < 2 ^ 31 := by rw [← hf.complete]; omega
  have htk := frame_take P f hf
  unfold process_cman_message
  by_cases hc : int32 ((P.length f : Int) - P.sizeof_sock_reply_header) ≤ h.reply_buflen
  all_goals
    simp only [hc, if_true, if_false]
    split_ifs with c1 c2 c3 c4 c5 c6 c7 c8
    all_goals first
      | exact ht
      | exact ⟨ht.reply, ht.data, ht.event⟩
      | exact ⟨ht.reply, add_to_waitlist_mem P _ _ f _ ht.data (by rw [htk]; exact ⟨c1, hlen⟩),
          ht.event⟩
      | exact ⟨add_to_waitlist_mem P _ _ f _ ht.reply (by rw [htk]; exact ⟨⟨c1, c4.1⟩, hlen⟩),
          ht.data, ht.event⟩
      | exact ⟨ht.reply, ht.data,
          add_to_waitlist_mem P _ _ f _ ht.event (by rw [htk]; exact ⟨⟨c1, c6⟩, hlen⟩)⟩

theorem queues_typed_fresh (P : Proto) (sock : List Chunk) : queues_typed P (fresh sock) :=
  ⟨fun m hm => (by cases hm), fun m hm => (by cases hm), fun m hm => (by cases hm)⟩

theorem queues_typed_all_due : queues_typed cnxman all_due where
  reply := by
    intro m hm
    simp only [all_due, List.mem_singleton] at hm
    subst hm
    exact ⟨⟨by decide, by decide⟩, by decide⟩
  data := by
    intro m hm
    simp only [all_due, List.mem_singleton] at hm
    subst hm
    exact ⟨by decide, by decide⟩
  event := by
    intro m hm
    simp only [all_due, List.mem_singleton] at hm
    subst hm
    exact ⟨⟨by decide, by decide⟩, by decide⟩

theorem dispatch_priority_witness :
    ∃ h1, cman_dispatch cnxman all_due 0 = some (int32 (cnxman.length reply_ok), h1) ∧
      h1.saved_reply_msg = [] ∧ h1.saved_data_msg = [data_a] ∧ h1.saved_event_msg = [event_a] :=
  (dispatch_priority cnxman cnxman_sane all_due 0 rfl queues_typed_all_due).1 reply_ok [] rfl
    (by decide)

/-! ## One pass: drain one message or read one frame -/

/-- The classifier does not touch a list that is not suppressed. -/
theorem process_keeps (P : Proto) (h : cman_handle) (flags : Nat) (f : List Nat) :
    (flags &&& P.CMAN_DISPATCH_IGNORE_REPLY = 0 →
      (process_cman_message P h flags f).2.saved_reply_msg = h.saved_reply_msg) ∧
    (flags &&& P.CMAN_DISPATCH_IGNORE_DATA = 0 →
      (process_cman_message P h flags f).2.saved_data_msg = h.saved_data_msg) ∧
    (flags &&& P.CMAN_DISPATCH_IGNORE_EVENT = 0 →
      (process_cman_message P h flags f).2.saved_event_msg = h.saved_event_msg) := by
  unfold process_cman_message
  by_cases hc : int32 ((P.length f : Int) - P.sizeof_sock_reply_header) ≤ h.reply_buflen
  all_goals
    simp only [hc, if_true, if_false]
    split_ifs with c1 c2 c3 c4 c5 c6 c7 c8
    all_goals first
      | exact ⟨fun _ => rfl, fun _ => rfl, fun _ => rfl⟩
      | exact ⟨fun _ => rfl, fun c => absurd c c2, fun _ => rfl⟩
      | exact ⟨fun c => absurd c c5, fun _ => rfl, fun _ => rfl⟩
      | exact ⟨fun _ => rfl, fun _ => rfl, fun c => absurd c c7⟩

theorem fifo_change_keeps {s : Prop} {q q1 : List (List Nat)} (hc : fifo_change s q q1)
    (hk : ¬ s → q1 = q) : q <+: q1 := by
  by_cases hs : s
  · exact hc.1 hs
  · rw [hk hs]

/-- After the classification of one message no saved message is missing. -/
theorem process_none_removed (P : Proto) (h : cman_handle) (flags : Nat) (f : List Nat) :
    none_removed h (process_cman_message P h flags f).2 := by
  obtain ⟨f1, f2, f3⟩ := process_fifo P h flags f
  obtain ⟨k1, k2, k3⟩ := process_keeps P h flags f
  exact ⟨fifo_change_keeps f1 (fun c => k1 (by simpa using c)),
    fifo_change_keeps f2 (fun c => k2 (by simpa using c)),
    fifo_change_keeps f3 (fun c => k3 (by simpa using c))⟩

theorem dispatch_classify_next_len (P : Proto) (h h1 : cman_handle) (flags : Nat)
    (buf : List Nat) (len len1 : Int)
    (hs : dispatch_classify P h flags buf len = Step.next len1 h1) : len1 = len := by
  unfold dispatch_classify at hs
  dsimp only at hs
  split_ifs at hs
  simp only [Step.next.injEq] at hs
  exact hs.1.symm

/-- The reading part of the loop body reaches the loop condition only with a
positive `len`. -/
theorem dispatch_read_next_pos (P : Proto) (h h1 : cman_handle) (flags : Nat) (len : Int)
    (hs : dispatch_read P h flags = Step.next len h1) : 0 < len := by
  unfold dispatch_read at hs
  rcases hr1 : sys_read h.sock P.sizeof_sock_header
      (decide (flags &&& P.CMAN_DISPATCH_BLOCKING = 0)) h.errno with _ | ⟨l1, buf, e1, s1⟩
  · simp [hr1] at hs
  · simp only [hr1] at hs
    split_ifs at hs with c1 c2 c3 c4
    · rcases hr2 : sys_read s1 (uint32 ((P.length buf : Int) - l1)) false e1
        with _ | ⟨l2, rest, e2, s2⟩
      · simp [hr2] at hs
      · simp only [hr2] at hs
        split_ifs at hs with d1 d2 d3
        have := dispatch_classify_next_len P _ _ flags _ _ _ hs
        omega
    · have := dispatch_classify_next_len P _ _ flags _ _ _ hs
      omega

/-- With nothing due, a call that returns has made one pass, through the
reading part of the loop body. -/
theorem cman_dispatch_idle_state (P : Proto) (h h1 : cman_handle) (flags : Nat) (ret : Int)
    (hm : h.magic = P.CMAN_MAGIC) (hi : idle P h flags)
    (hd : cman_dispatch P h flags = some (ret, h1)) :
    (dispatch_read P h flags).state? = some h1 := by
  unfold cman_dispatch at hd
  simp only [hm, ne_eq, not_true_eq_false, if_false] at hd
  rw [dispatch_loop, dispatch_body_idle P h flags hi] at hd
  rcases hb : dispatch_read P h flags with ⟨len, h2⟩ | ⟨len, h2⟩ | ⟨v, h2⟩ | _
  · have hpos := dispatch_read_next_pos P h h2 flags len hb
    simp only [hb] at hd
    have hstop : ¬ (flags &&& P.CMAN_DISPATCH_ALL ≠ 0 ∧ (len < 0 ∧ h2.errno = EAGAIN)) := by
      rintro ⟨-, hneg, -⟩; omega
    rw [if_neg hstop] at hd
    simp only [Option.some.injEq, Prod.mk.injEq] at hd
    rw [← hd.2]; rfl
  · simp only [hb, Option.some.injEq, Prod.mk.injEq] at hd
    rw [← hd.2]; rfl
  · simp only [hb, Option.some.injEq, Prod.mk.injEq] at hd
    rw [← hd.2]; rfl
  · simp [hb] at hd

/-- C8: without the drain-all flag one call of `cman_dispatch` does one of two
things.  When a saved message is due, it removes that one message from the
head of its list and classifies it, removes nothing else and does not touch
the connection.  When nothing is due, it removes no saved message and
classifies at most one buffer read from the connection; a complete frame that
is available is read as a whole, and nothing after it is read. -/
theorem dispatch_one_step (P : Proto) (hP : P.sane) (h : cman_handle) (flags : Nat)
    (hm : h.magic = P.CMAN_MAGIC) (hall : flags &&& P.CMAN_DISPATCH_ALL = 0) :
    (∀ m q, h.saved_reply_msg = m :: q → flags &&& P.CMAN_DISPATCH_IGNORE_REPLY = 0 →
      cman_dispatch P h flags =
          some (int32 (P.length m),
            { (process_cman_message P h flags m).2 with saved_reply_msg := q }) ∧
        (process_cman_message P h flags m).2.sock = h.sock ∧
        none_removed h (process_cman_message P h flags m).2) ∧
    (∀ m q, (h.saved_reply_msg = [] ∨ flags &&& P.CMAN_DISPATCH_IGNORE_REPLY ≠ 0) →
      h.saved_data_msg = m :: q → flags &&& P.CMAN_DISPATCH_IGNORE_DATA = 0 →
      cman_dispatch P h flags =
          some (int32 (P.length m),
            { (process_cman_message P h flags m).2 with saved_data_msg := q }) ∧
        (process_cman_message P h flags m).2.sock = h.sock ∧
        none_removed h (process_cman_message P h flags m).2) ∧
    (∀ m q, (h.saved_reply_msg = [] ∨ flags &&& P.CMAN_DISPATCH_IGNORE_REPLY ≠ 0) →
      (h.saved_data_msg = [] ∨ flags &&& P.CMAN_DISPATCH_IGNORE_DATA ≠ 0) →
      h.saved_event_msg = m :: q → flags &&& P.CMAN_DISPATCH_IGNORE_EVENT = 0 →
      cman_dispatch P h flags =
          some (int32 (P.length m),
            { (process_cman_message P h flags m).2 with saved_event_msg := q }) ∧
        (process_cman_message P h flags m).2.sock = h.sock ∧
        none_removed h (process_cman_message P h flags m).2) ∧
    (idle P h flags → ∀ ret h1, cman_dispatch P h flags = some (ret, h1) →
      none_removed h h1 ∧
        ((∃ s e, h1 = { h with sock := s, errno := e }) ∨
          (∃ s e buf,
            h1 = (process_cman_message P { h with sock := s, errno := e } flags buf).2))) ∧
    (idle P h flags → ∀ f more rest, Frame P f → h.sock = Chunk.bytes (f ++ more) :: rest →
      cman_dispatch P h flags =
        some (read_len P f,
          (process_cman_message P { h with sock := unread more rest } flags f).2)) := by
  refine ⟨?_, ?_, ?_, ?_, ?_⟩
  · intro m q hq hf
    have hb := dispatch_body_reply P h flags m q hq hf
    rw [(process_keeps P h flags m).1 hf, hq, List.tail_cons] at hb
    exact ⟨cman_dispatch_drain P h _ flags m hm hb (Or.inl hall),
      (process_frame_env P h flags m).1, process_none_removed P h flags m⟩
  · intro m q hr hq hf
    have hb := dispatch_body_data P h flags m q hr hq hf
    rw [(process_keeps P h flags m).2.1 hf, hq, List.tail_cons] at hb
    exact ⟨cman_dispatch_drain P h _ flags m hm hb (Or.inl hall),
      (process_frame_env P h flags m).1, process_none_removed P h flags m⟩
  · intro m q hr hdq hq hf
    have hb := dispatch_body_event P h flags m q hr hdq hq hf
    rw [(process_keeps P h flags m).2.2 hf, hq, List.tail_cons] at hb
    exact ⟨cman_dispatch_drain P h _ flags m hm hb (Or.inl hall),
      (process_frame_env P h flags m).1, process_none_removed P h flags m⟩
  · intro hi ret h1 hd
    have hs := cman_dispatch_idle_state P h h1 flags ret hm hi hd
    refine ⟨?_, dispatch_read_state P h h1 flags hs⟩
    rcases dispatch_read_state P h h1 flags hs with ⟨s, e, rfl⟩ | ⟨s, e, buf, rfl⟩
    · exact ⟨List.prefix_refl _, List.prefix_refl _, List.prefix_refl _⟩
    · exact process_none_removed P { h with sock := s, errno := e } flags buf
  · intro hi f more rest hf hs
    exact cman_dispatch_frame P hP h flags f more rest hm hi hf hs

/-! ## The drain-all flag and the return value -/

theorem dispatch_one_step_witness :
    cman_dispatch cnxman all_due 0 =
        some (int32 (cnxman.length reply_ok),
          { (process_cman_message cnxman all_due 0 reply_ok).2 with saved_reply_msg := [] }) ∧
      (process_cman_message cnxman all_due 0 reply_ok).2.sock = all_due.sock ∧
      none_removed all_due (process_cman_message cnxman all_due 0 reply_ok).2 :=
  (dispatch_one_step cnxman cnxman_sane all_due 0 rfl (by decide)).1 reply_ok [] rfl (by decide)

/-- C9, the code at the failing input: two events are saved and the
connection has nothing to read; a non-blocking call with the drain-all flag
returns 24 after the first event, and the second is still saved. -/
theorem drain_all_stops_after_one :
    cman_dispatch cnxman (backlog [event_a, event_b]) cnxman.CMAN_DISPATCH_ALL =
      some (24, { backlog [event_b] with calls := [Upcall.event 1 10] }) := by
  decide

/-- C10 fails as stated: an event of 24 bytes, 8 of them after the header, is
drained from the event list and the call returns 24. -/
theorem drained_returns_total_length :
    ∃ h1, cman_dispatch cnxman (backlog [event_a]) 0 = some (24, h1) ∧
      (24 : Int) ≠ (event_a.length : Int) - cnxman.sizeof_sock_header :=
  ⟨_, rfl, by decide⟩

/-- C10 (amended): when `cman_dispatch` drains a saved message it returns the
total length of that frame, header included; when it reads a complete frame
from the connection it returns the count of its last read: the number of bytes
after the header when there are any, the size of the header otherwise. -/
theorem dispatch_return_value (P : Proto) (hP : P.sane) (h : cman_handle) (flags : Nat)
    (hm : h.magic = P.CMAN_MAGIC) (ht : queues_typed P h) :
    (∀ m q, h.saved_reply_msg = m :: q → flags &&& P.CMAN_DISPATCH_IGNORE_REPLY = 0 →
      ∃ h1, cman_dispatch P h flags = some ((P.length m : Int), h1)) ∧
    (∀ m q, (h.saved_reply_msg = [] ∨ flags &&& P.CMAN_DISPATCH_IGNORE_REPLY ≠ 0) →
      h.saved_data_msg = m :: q → flags &&& P.CMAN_DISPATCH_IGNORE_DATA = 0 →
      ∃ h1, cman_dispatch P h flags = some ((P.length m : Int), h1)) ∧
    (∀ m q, (h.saved_reply_msg = [] ∨ flags &&& P.CMAN_DISPATCH_IGNORE_REPLY ≠ 0) →
      (h.saved_data_msg = [] ∨ flags &&& P.CMAN_DISPATCH_IGNORE_DATA ≠ 0) →
      h.saved_event_msg = m :: q → flags &&& P.CMAN_DISPATCH_IGNORE_EVENT = 0 →
      ∃ h1, cman_dispatch P h flags = some ((P.length m : Int), h1)) ∧
    (idle P h flags → ∀ f more rest, Frame P f → h.sock = Chunk.bytes (f ++ more) :: rest →
      ∃ ret h1, cman_dispatch P h flags = some (ret, h1) ∧
        (P.sizeof_sock_header < f.length → ret = (f.length : Int) - P.sizeof_sock_header) ∧
        (f.length = P.sizeof_sock_header → ret = P.sizeof_sock_header)) := by
  refine ⟨?_, ?_, ?_, ?_⟩
  · intro m q hq hf
    have hlen := (ht.reply m (by rw [hq]; exact List.mem_cons_self _ _)).2
    have hd := cman_dispatch_drain P h _ flags m hm (dispatch_body_reply P h flags m q hq hf)
      (Or.inr hlen)
    rw [int32_length_nonneg _ hlen] at hd
    exact ⟨_, hd⟩
  · intro m q hr hq hf
    have hlen := (ht.data m (by rw [hq]; exact List.mem_cons_self _ _)).2
    have hd := cman_dispatch_drain P h _ flags m hm (dispatch_body_data P h flags m q hr hq hf)
      (Or.inr hlen)
    rw [int32_length_nonneg _ hlen] at hd
    exact ⟨_, hd⟩
  · intro m q hr hdq hq hf
    have hlen := (ht.event m (by rw [hq]; exact List.mem_cons_self _ _)).2
    have hd := cman_dispatch_drain P h _ flags m hm
      (dispatch_body_event P h flags m q hr hdq hq hf) (Or.inr hlen)
    rw [int32_length_nonneg _ hlen] at hd
    exact ⟨_, hd⟩
  · intro hi f more rest hf hs
    refine ⟨_, _, cman_dispatch_frame P hP h flags f more rest hm hi hf hs, ?_, ?_⟩
    · intro hlt
      unfold read_len
      rw [if_neg (by omega)]
    · intro heq
      unfold read_len
      rw [if_pos heq, heq]

theorem dispatch_return_value_witness :
    ∃ h1, cman_dispatch cnxman all_due 0 = some ((cnxman.length reply_ok : Int), h1) :=
  (dispatch_return_value cnxman cnxman_sane all_due 0 rfl queues_typed_all_due).1 reply_ok []
    rfl (by decide)

/-! ## The bounds on the passes of the two loops -/

theorem due_count_le (P : Proto) (h : cman_handle) (flags : Nat) :
    due_count P h flags ≤
      h.saved_reply_msg.length + h.saved_data_msg.length + h.saved_event_msg.length := by
  unfold due_count
  split_ifs <;> omega

/-- A pass that reaches the loop condition with a negative `len` has drained a
saved message. -/
theorem dispatch_body_next_neg (P : Proto) (h h1 : cman_handle) (flags : Nat) (len : Int)
    (hb : dispatch_body P h flags = Step.next len h1) (hneg : len < 0) :
    due_count P h1 flags + 1 = due_count P h flags := by
  by_cases hr : h.saved_reply_msg = [] ∨ flags &&& P.CMAN_DISPATCH_IGNORE_REPLY ≠ 0
  · by_cases hd : h.saved_data_msg = [] ∨ flags &&& P.CMAN_DISPATCH_IGNORE_DATA ≠ 0
    · by_cases he : h.saved_event_msg = [] ∨ flags &&& P.CMAN_DISPATCH_IGNORE_EVENT ≠ 0
      · rw [dispatch_body_idle P h flags ⟨hr, hd, he⟩] at hb
        have := dispatch_read_next_pos P h h1 flags len hb
        omega
      · rw [not_or, not_not] at he
        obtain ⟨m, q, hq⟩ := List.exists_cons_of_ne_nil he.1
        rw [dispatch_body_event P h flags m q hr hd hq he.2] at hb
        simp only [Step.next.injEq] at hb
        obtain ⟨k1, k2, k3⟩ := process_keeps P h flags m
        rw [← hb.2]
        unfold due_count
        dsimp only
        rw [if_pos he.2, if_pos he.2, k3 he.2, hq]
        by_cases c1 : flags &&& P.CMAN_DISPATCH_IGNORE_REPLY = 0 <;>
          by_cases c2 : flags &&& P.CMAN_DISPATCH_IGNORE_DATA = 0 <;>
          simp [c1, c2, k1, k2] <;> omega
    · rw [not_or, not_not] at hd
      obtain ⟨m, q, hq⟩ := List.exists_cons_of_ne_nil hd.1
      rw [dispatch_body_data P h flags m q hr hq hd.2] at hb
      simp only [Step.next.injEq] at hb
      obtain ⟨k1, k2, k3⟩ := process_keeps P h flags m
      rw [← hb.2]
      unfold due_count
      dsimp only
      rw [if_pos hd.2, if_pos hd.2, k2 hd.2, hq]
      by_cases c1 : flags &&& P.CMAN_DISPATCH_IGNORE_REPLY = 0 <;>
        by_cases c3 : flags &&& P.CMAN_DISPATCH_IGNORE_EVENT = 0 <;>
        simp [c1, c3, k1, k3] <;> omega
  · rw [not_or, not_not] at hr
    obtain ⟨m, q, hq⟩ := List.exists_cons_of_ne_nil hr.1
    rw [dispatch_body_reply P h flags m q hq hr.2] at hb
    simp only [Step.next.injEq] at hb
    obtain ⟨k1, k2, k3⟩ := process_keeps P h flags m
    rw [← hb.2]
    unfold due_count
    dsimp only
    rw [if_pos hr.2, if_pos hr.2, k1 hr.2, hq]
    by_cases c2 : flags &&& P.CMAN_DISPATCH_IGNORE_DATA = 0 <;>
      by_cases c3 : flags &&& P.CMAN_DISPATCH_IGNORE_EVENT = 0 <;>
      simp [c2, c3, k2, k3] <;> omega

/-- More passes than there are messages to drain are never used: beyond that
bound the number of passes allowed does not matter. -/
theorem dispatch_loop_enough (P : Proto) (flags : Nat) (n : Nat) :
    ∀ h : cman_handle, due_count P h flags < n →
      dispatch_loop P (n + 1) h flags = dispatch_loop P n h flags := by
  induction n with
  | zero => intro h hlt; omega
  | succ n ih =>
    intro h hlt
    rw [dispatch_loop, dispatch_loop]
    rcases hb : dispatch_body P h flags with ⟨len, h1⟩ | ⟨len, h1⟩ | ⟨v, h1⟩ | _
    · dsimp only
      split_ifs with hc
      · have := dispatch_body_next_neg P h h1 flags len hb hc.2.1
        exact ih h1 (by omega)
      · rfl
    · rfl
    · rfl
    · rfl

/-- The bound on the passes in `cman_dispatch` loses nothing: with any larger
number of passes allowed the loop gives the same result. -/
theorem cman_dispatch_passes (P : Proto) (h : cman_handle) (flags : Nat) (k : Nat) :
    dispatch_loop P
        (h.saved_reply_msg.length + h.saved_data_msg.length + h.saved_event_msg.length + 1 + k)
        h flags =
      dispatch_loop P
        (h.saved_reply_msg.length + h.saved_data_msg.length + h.saved_event_msg.length + 1)
        h flags := by
  induction k with
  | zero => rfl
  | succ k ih =>
    rw [← ih, ← Nat.add_assoc]
    exact dispatch_loop_enough P flags _ h (by have := due_count_le P h flags; omega)

/-- A result of the loop of `wait_for_reply` does not depend on the number of
passes allowed, once that number suffices. -/
theorem wait_loop_more (P : Proto) (n : Nat) :
    ∀ (h : cman_handle) (r : Int × cman_handle),
      wait_loop P n h = some r → wait_loop P (n + 1) h = some r := by
  induction n with
  | zero => intro h r hw; simp [wait_loop] at hw
  | succ n ih =>
    intro h r hw
    rw [wait_loop] at hw ⊢
    rcases hd : cman_dispatch P h
      (P.CMAN_DISPATCH_BLOCKING ||| P.CMAN_DISPATCH_IGNORE_EVENT ||| P.CMAN_DISPATCH_IGNORE_DATA)
      with _ | ⟨ret, h1⟩
    · simp [hd] at hw
    · simp only [hd] at hw ⊢
      split_ifs at hw ⊢ with hc
      · exact ih h1 r hw
      · exact hw

/-! ## End of stream -/

/-- The frames `pre`, none of them consumed as a reply, pass through the loop
of `wait_for_reply` one per pass and leave it in the state with the data and
event frames saved. -/
theorem wait_loop_pre (P : Proto) (hP : P.sane) (s1 : List Chunk) (k : Nat)
    (pre : List (List Nat)) :
    ∀ (h : cman_handle),
      h.magic = P.CMAN_MAGIC → heap_ok h.heap → h.saved_reply_msg = [] → h.want_reply = 1 →
      (∀ f ∈ pre, Frame P f ∧ (is_data P f ∨ ¬ is_reply P f)) →
      Arrives pre h.sock s1 →
      ∃ heap1, heap_ok heap1 ∧
        wait_loop P (pre.length + k) h = wait_loop P k
          { h with
            sock := s1, heap := heap1,
            saved_data_msg := h.saved_data_msg ++ pre.filter (fun f => decide (is_data P f)),
            saved_event_msg :=
              h.saved_event_msg ++ pre.filter (fun f => decide (is_event P f)) } := by
  induction pre with
  | nil =>
    intro h hm hh hq hw _ harr
    simp only [Arrives] at harr
    refine ⟨h.heap, hh, ?_⟩
    simp [← harr]
  | cons f pre ih =>
    intro h hm hh hq hw hpre harr
    obtain ⟨more, rest, hs, harr1⟩ := harr
    have hf := hpre f (List.mem_cons_self _ _)
    have hpre1 : ∀ g ∈ pre, Frame P g ∧ (is_data P g ∨ ¬ is_reply P g) :=
      fun g hg => hpre g (List.mem_cons_of_mem _ hg)
    have hpos := read_len_pos P hP f hf.1
    have hd := cman_dispatch_frame P hP h (wait_flags P) f more rest hm (idle_wait P hP h hq)
      hf.1 hs
    have hfu : (f :: pre).length + k = (pre.length + k) + 1 := by simp; omega
    rw [hfu]
    by_cases hfd : is_data P f
    · have hne : ¬ is_event P f := fun he => event_not_data_frame P hP f he hfd
      rw [process_data_saved P { h with sock := unread more rest } (wait_flags P) f hfd
        hP.wait_data hh, frame_take P f hf.1] at hd
      dsimp only at hd
      have hok := (add_to_waitlist_ok P hh h.saved_data_msg f).2
      rw [wait_loop_succ P _ h _ _ hd, if_pos ⟨hw, le_of_lt hpos⟩]
      obtain ⟨heap1, hh1, hl⟩ := ih
        { h with sock := unread more rest,
                 heap := (add_to_waitlist P h.heap h.saved_data_msg f).1,
                 saved_data_msg := h.saved_data_msg ++ [f] } hm hok hq hw hpre1 harr1
      refine ⟨heap1, hh1, ?_⟩
      rw [hl]
      simp [hfd, hne]
    · have hnr : ¬ is_reply P f := by
        rcases hf.2 with h1 | h1
        · exact absurd h1 hfd
        · exact h1
      by_cases hfe : is_event P f
      · rw [process_event_saved P hP { h with sock := unread more rest } (wait_flags P) f hfe
          hP.wait_event hh, frame_take P f hf.1] at hd
        dsimp only at hd
        have hok := (add_to_waitlist_ok P hh h.saved_event_msg f).2
        rw [wait_loop_succ P _ h _ _ hd, if_pos ⟨hw, le_of_lt hpos⟩]
        obtain ⟨heap1, hh1, hl⟩ := ih
          { h with sock := unread more rest,
                   heap := (add_to_waitlist P h.heap h.saved_event_msg f).1,
                   saved_event_msg := h.saved_event_msg ++ [f] } hm hok hq hw hpre1 harr1
        refine ⟨heap1, hh1, ?_⟩
        rw [hl]
        simp [hfd, hfe]
      · rw [process_other P { h with sock := unread more rest } (wait_flags P) f hfd
          (Or.inl hnr) hfe] at hd
        dsimp only at hd
        rw [wait_loop_succ P _ h _ _ hd, if_pos ⟨hw, le_of_lt hpos⟩]
        obtain ⟨heap1, hh1, hl⟩ := ih { h with sock := unread more rest } hm hh hq hw hpre1
          harr1
        refine ⟨heap1, hh1, ?_⟩
        rw [hl]
        simp [hfd, hfe]

/-- The reading part of the loop body at end-of-stream. -/
theorem dispatch_read_eof (P : Proto) (h : cman_handle) (flags : Nat)
    (he : at_eof P h.sock) :
    ∃ s, dispatch_read P h flags = Step.ret (-1) { h with sock := s, errno := EHOSTDOWN } := by
  rcases he with ⟨rest, hs⟩ | ⟨hb, rest, hs, hne, hle, hfit, hlen⟩
  · refine ⟨Chunk.eof :: rest, ?_⟩
    unfold dispatch_read
    simp [hs, sys_read]
  · refine ⟨Chunk.eof :: rest, ?_⟩
    have hpb : PIPE_BUF = 4096 := rfl
    have hd : hb.drop P.sizeof_sock_header = [] := List.drop_eq_nil_of_le hle
    have hpos : 0 < hb.length := List.length_pos.mpr hne
    have hu : uint32 (hb.length : Int) = hb.length := by
      rw [uint32_of_range (by omega) (by omega)]; simp
    have h0 : ¬ ((hb.length : Int) = 0) := by omega
    have h1 : ¬ ((hb.length : Int) < 0) := by omega
    have h2 : ¬ (hb.length = P.length hb) := fun c => hlen c.symm
    unfold dispatch_read
    simp only [hs, sys_read, hne, if_false, hd, if_true, h0, h1, false_and, hu, ne_eq, h2,
      not_false_eq_true]

/-- With nothing due, `cman_dispatch` at end-of-stream returns -1 with
`EHOSTDOWN` and changes nothing else but the position in the connection. -/
theorem cman_dispatch_eof (P : Proto) (h : cman_handle) (flags : Nat)
    (hm : h.magic = P.CMAN_MAGIC) (hi : idle P h flags) (he : at_eof P h.sock) :
    ∃ s, cman_dispatch P h flags = some (-1, { h with sock := s, errno := EHOSTDOWN }) := by
  obtain ⟨s, hs⟩ := dispatch_read_eof P h flags he
  have hb := dispatch_body_idle P h flags hi
  rw [hs] at hb
  exact ⟨s, cman_dispatch_ret P h _ flags _ hm hb⟩

/-- A synchronous call that meets end-of-stream, after frames that are not
consumed as replies, returns -1 with `EHOSTDOWN` and leaves the caller's buffer
as it was. -/
theorem wait_for_reply_eof (P : Proto) (hP : P.sane) (h : cman_handle)
    (hm : h.magic = P.CMAN_MAGIC) (msg : List Nat) (max_len : Int) (pre : List (List Nat))
    (s1 : List Chunk) (k : Nat) (hh : heap_ok h.heap) (hq : h.saved_reply_msg = [])
    (hpre : ∀ f ∈ pre, Frame P f ∧ (is_data P f ∨ ¬ is_reply P f))
    (harr : Arrives pre h.sock s1) (he : at_eof P s1) :
    ∃ h1, wait_for_reply P (pre.length + (k + 1)) h msg max_len = some (-1, msg, h1) ∧
      h1.errno = EHOSTDOWN ∧ h1.calls = h.calls := by
  obtain ⟨heap1, -, hl⟩ := wait_loop_pre P hP s1 (k + 1) pre
    { h with want_reply := 1, reply_buffer := msg, reply_buflen := max_len } hm hh hq rfl hpre harr
  dsimp only at hl
  obtain ⟨s, hd⟩ := cman_dispatch_eof P
    { h with
      want_reply := 1, reply_buffer := msg, reply_buflen := max_len, sock := s1, heap := heap1,
      saved_data_msg := h.saved_data_msg ++ pre.filter (fun f => decide (is_data P f)),
      saved_event_msg := h.saved_event_msg ++ pre.filter (fun f => decide (is_event P f)) }
    (wait_flags P) hm (idle_wait P hP _ hq) he
  dsimp only at hd
  rw [wait_loop_succ P k _ _ _ hd] at hl
  have hno : ¬ ((1 : Int) = 1 ∧ (-1 : Int) ≥ 0) := by omega
  dsimp only at hl
  rw [if_neg hno] at hl
  unfold wait_for_reply
  simp only [hl]
  have hneg : (-1 : Int) < 0 := by omega
  rw [if_pos hneg]
  exact ⟨_, rfl, rfl, rfl⟩

/-- C12: end-of-stream at the read of a frame header or of the rest of a
frame makes `cman_dispatch` return -1 with `errno = EHOSTDOWN`, with the lists,
the callback log and the call state as they were; and a synchronous call that
is waiting at that moment returns -1 with `errno = EHOSTDOWN`. -/
theorem eof_is_peer_unreachable (P : Proto) (hP : P.sane) (h : cman_handle)
    (hm : h.magic = P.CMAN_MAGIC) :
    (∀ flags, idle P h flags → at_eof P h.sock →
      ∃ s, cman_dispatch P h flags = some (-1, { h with sock := s, errno := EHOSTDOWN })) ∧
    (∀ (msg : List Nat) (max_len : Int) (pre : List (List Nat)) (s1 : List Chunk) (k : Nat),
      heap_ok h.heap → h.saved_reply_msg = [] →
      (∀ f ∈ pre, Frame P f ∧ (is_data P f ∨ ¬ is_reply P f)) →
      Arrives pre h.sock s1 → at_eof P s1 →
      ∃ h1, wait_for_reply P (pre.length + (k + 1)) h msg max_len = some (-1, msg, h1) ∧
        h1.errno = EHOSTDOWN ∧ h1.calls = h.calls) :=
  ⟨fun flags hi he => cman_dispatch_eof P h flags hm hi he,
    fun msg max_len pre s1 k hh hq hpre harr he =>
      wait_for_reply_eof P hP h hm msg max_len pre s1 k hh hq hpre harr he⟩

theorem eof_is_peer_unreachable_witness :
    ∃ h1, wait_for_reply cnxman (1 + (0 + 1))
        (fresh [Chunk.bytes event_a, Chunk.bytes (reply_ok.take 16), Chunk.eof]) [9, 9] 2 =
          some (-1, [9, 9], h1) ∧
      h1.errno = EHOSTDOWN ∧ h1.calls = [] :=
  (eof_is_peer_unreachable cnxman cnxman_sane
    (fresh [Chunk.bytes event_a, Chunk.bytes (reply_ok.take 16), Chunk.eof]) rfl).2
    [9, 9] 2 [event_a] [Chunk.bytes (reply_ok.take 16), Chunk.eof] 0
    (by intro b hb; cases hb) rfl
    (by
      intro f hf
      simp only [List.mem_singleton] at hf
      subst hf
      exact ⟨frame_event_a, Or.inr (by decide)⟩)
    ⟨[], _, rfl, rfl⟩
    (Or.inr ⟨reply_ok.take 16, [], rfl, by decide, by decide, by decide, by decide⟩)

/-! ## The protocol tag of a received frame -/

theorem frame_alien_event : Frame cnxman alien_event := ⟨by decide, by decide, by decide⟩

/-- C13 fails as stated: a frame whose protocol tag is not `CMAN_MAGIC` is read
and delivered to the event callback, and the call returns 8. -/
theorem alien_frame_delivered :
    cnxman.magic alien_event ≠ cnxman.CMAN_MAGIC ∧
      cman_dispatch cnxman (listening [Chunk.bytes alien_event]) 0 =
        some (8, { listening [] with calls := [Upcall.event 1 10] }) := by
  decide

theorem dispatch_body_magic_free (P : Proto) (g : List Nat → Nat) (h : cman_handle)
    (flags : Nat) : dispatch_body { P with magic := g } h flags = dispatch_body P h flags :=
  rfl

theorem dispatch_loop_magic_free (P : Proto) (g : List Nat → Nat) (flags : Nat) (fuel : Nat) :
    ∀ h : cman_handle,
      dispatch_loop { P with magic := g } fuel h flags = dispatch_loop P fuel h flags := by
  induction fuel with
  | zero => intro h; rfl
  | succ n ih =>
    intro h
    rw [dispatch_loop, dispatch_loop, dispatch_body_magic_free]
    rcases dispatch_body P h flags with ⟨len, h1⟩ | ⟨len, h1⟩ | ⟨v, h1⟩ | _
    · dsimp only
      rw [ih h1]
    · rfl
    · rfl
    · rfl

/-- No field read `magic` has any part in `cman_dispatch`. -/
theorem cman_dispatch_magic_free (P : Proto) (g : List Nat → Nat) (h : cman_handle)
    (flags : Nat) : cman_dispatch { P with magic := g } h flags = cman_dispatch P h flags := by
  unfold cman_dispatch
  rw [dispatch_loop_magic_free]

/-- C13 (amended): `cman_dispatch` does not look at the protocol tag of a frame
it reads: a complete frame whose tag differs from `CMAN_MAGIC` is classified
like any other and the call returns a positive value; and no field read
`magic` at all changes what `cman_dispatch` does. -/
theorem frame_magic_not_checked (P : Proto) (hP : P.sane) (h : cman_handle) (flags : Nat)
    (f more : List Nat) (rest : List Chunk) (hm : h.magic = P.CMAN_MAGIC)
    (hi : idle P h flags) (hf : Frame P f) (hs : h.sock = Chunk.bytes (f ++ more) :: rest)
    (_htag : P.magic f ≠ P.CMAN_MAGIC) :
    cman_dispatch P h flags =
        some (read_len P f,
          (process_cman_message P { h with sock := unread more rest } flags f).2) ∧
      0 < read_len P f ∧
      ∀ g : List Nat → Nat, cman_dispatch { P with magic := g } h flags = cman_dispatch P h flags :=
  ⟨cman_dispatch_frame P hP h flags f more rest hm hi hf hs, read_len_pos P hP f hf,
    fun g => cman_dispatch_magic_free P g h flags⟩

theorem frame_magic_not_checked_witness :
    cman_dispatch cnxman (listening [Chunk.bytes alien_event]) 0 =
        some (read_len cnxman alien_event,
          (process_cman_message cnxman { listening [Chunk.bytes alien_event] with
            sock := unread [] [] } 0 alien_event).2) ∧
      0 < read_len cnxman alien_event ∧
      ∀ g : List Nat → Nat,
        cman_dispatch { cnxman with magic := g } (listening [Chunk.bytes alien_event]) 0 =
          cman_dispatch cnxman (listening [Chunk.bytes alien_event]) 0 :=
  frame_magic_not_checked cnxman cnxman_sane (listening [Chunk.bytes alien_event]) 0
    alien_event [] [] rfl ⟨Or.inl rfl, Or.inl rfl, Or.inl rfl⟩ frame_alien_event rfl (by decide)

/-! ## Data frames, unmatched frames, interrupted and empty reads -/

/-- A data frame when data is not suppressed and a callback is registered. -/
theorem process_data_called (P : Proto) (h : cman_handle) (flags : Nat) (f : List Nat)
    (hd : is_data P f) (hfl : flags &&& P.CMAN_DISPATCH_IGNORE_DATA = 0)
    (hcb : h.data_callback = true) :
    process_cman_message P h flags f =
      (0, { h with calls := h.calls ++
              [Upcall.data (f.drop P.sizeof_sock_data_header)
                (int32 ((P.length f : Int) - P.sizeof_sock_data_header))
                (P.port f) (P.nodeid f)] }) := by
  unfold is_data at hd
  unfold process_cman_message
  simp only [hd, if_true, hfl, ne_eq, not_true_eq_false, if_false, hcb]

/-- A data frame when data is not suppressed and no callback is registered. -/
theorem process_data_unheard (P : Proto) (h : cman_handle) (flags : Nat) (f : List Nat)
    (hd : is_data P f) (hfl : flags &&& P.CMAN_DISPATCH_IGNORE_DATA = 0)
    (hcb : h.data_callback = false) :
    process_cman_message P h flags f = (0, h) := by
  unfold is_data at hd
  unfold process_cman_message
  simp [hd, hfl, hcb]

/-- With both allocations succeeding `add_to_waitlist` appends the copy and
leaves `errno` alone. -/
theorem add_to_waitlist_alloc (P : Proto) (heap : List Bool) (m : List (List Nat))
    (msg : List Nat) (errno : Int) (ha : waitlist_alloc heap = true) :
    (add_to_waitlist P heap m msg).2 = m ++ [msg.take (P.length msg)] ∧
      add_to_waitlist_errno heap errno = errno := by
  unfold waitlist_alloc at ha
  unfold add_to_waitlist add_to_waitlist_errno
  rcases hm1 : malloc heap with ⟨b1, heap1⟩
  rw [hm1] at ha
  rcases hm2 : malloc heap1 with ⟨b2, heap2⟩
  simp only [hm2, Bool.and_eq_true] at ha
  obtain ⟨rfl, rfl⟩ := ha
  simp [hm2, link_last_eq, memcpy]

/-- When one of its allocations fails `add_to_waitlist` leaves the list as it
was, and `errno` is `ENOMEM`. -/
theorem add_to_waitlist_no_alloc (P : Proto) (heap : List Bool) (m : List (List Nat))
    (msg : List Nat) (errno : Int) (ha : waitlist_alloc heap = false) :
    (add_to_waitlist P heap m msg).2 = m ∧ add_to_waitlist_errno heap errno = ENOMEM := by
  unfold waitlist_alloc at ha
  unfold add_to_waitlist add_to_waitlist_errno
  rcases hm1 : malloc heap with ⟨b1, heap1⟩
  rw [hm1] at ha
  rcases hm2 : malloc heap1 with ⟨b2, heap2⟩
  simp only [hm2] at ha
  cases b1
  · exact ⟨rfl, rfl⟩
  · cases b2
    · simp [hm2]
    · simp at ha

theorem waitlist_alloc_ok {heap : List Bool} (hh : heap_ok heap) : waitlist_alloc heap = true := by
  unfold waitlist_alloc
  rw [(malloc_ok hh).1, (malloc_ok (malloc_ok hh).2).1]
  rfl

/-- C14 fails as stated: data is suppressed and `malloc` returns `NULL`; the
frame is not appended to the data list, and nothing changes but `errno`. -/
theorem data_dropped_without_memory :
    process_cman_message cnxman { fresh [] with heap := [false] }
        cnxman.CMAN_DISPATCH_IGNORE_DATA data_a =
      (0, { fresh [] with errno := ENOMEM }) := by
  decide

/-- C14 (amended): a data frame handled by `process_cman_message`.  With data
suppressed and both allocations succeeding, one copy of the frame is appended to
the data list and no callback is invoked; with data suppressed and an
allocation failing, the frame is dropped: no list and no callback log changes,
only the malloc script moves on and `errno` becomes `ENOMEM`.  With data not
suppressed, the registered data callback is invoked once, with the bytes after
the data header, the length less the size of the data header, the port and the
node id, and no list changes; without a registered callback nothing happens.
In every case the result is 0 and the call state is as it was. -/
theorem data_frame_saved_or_delivered (P : Proto) (h : cman_handle) (flags : Nat)
    (f : List Nat) (hd : is_data P f) :
    (flags &&& P.CMAN_DISPATCH_IGNORE_DATA ≠ 0 → waitlist_alloc h.heap = true →
      process_cman_message P h flags f =
        (0, { h with heap := (add_to_waitlist P h.heap h.saved_data_msg f).1,
                     saved_data_msg := h.saved_data_msg ++ [f.take (P.length f)] })) ∧
    (flags &&& P.CMAN_DISPATCH_IGNORE_DATA ≠ 0 → waitlist_alloc h.heap = false →
      process_cman_message P h flags f =
        (0, { h with heap := (add_to_waitlist P h.heap h.saved_data_msg f).1,
                     errno := ENOMEM })) ∧
    (flags &&& P.CMAN_DISPATCH_IGNORE_DATA = 0 → h.data_callback = true →
      process_cman_message P h flags f =
        (0, { h with calls := h.calls ++
                [Upcall.data (f.drop P.sizeof_sock_data_header)
                  (int32 ((P.length f : Int) - P.sizeof_sock_data_header))
                  (P.port f) (P.nodeid f)] })) ∧
    (flags &&& P.CMAN_DISPATCH_IGNORE_DATA = 0 → h.data_callback = false →
      process_cman_message P h flags f = (0, h)) ∧
    (process_cman_message P h flags f).1 = 0 ∧
    (process_cman_message P h flags f).2.want_reply = h.want_reply ∧
    (process_cman_message P h flags f).2.reply_buffer = h.reply_buffer ∧
    (process_cman_message P h flags f).2.reply_buflen = h.reply_buflen ∧
    (process_cman_message P h flags f).2.reply_status = h.reply_status := by
  refine ⟨?_, ?_,
    fun hfl hcb => process_data_called P h flags f hd hfl hcb,
    fun hfl hcb => process_data_unheard P h flags f hd hfl hcb, ?_⟩
  · intro hfl ha
    obtain ⟨h1, h2⟩ := add_to_waitlist_alloc P h.heap h.saved_data_msg f h.errno ha
    unfold is_data at hd
    unfold process_cman_message
    simp only [hd, if_true, hfl, ne_eq, not_false_eq_true, h1, h2]
  · intro hfl ha
    obtain ⟨h1, h2⟩ := add_to_waitlist_no_alloc P h.heap h.saved_data_msg f h.errno ha
    unfold is_data at hd
    unfold process_cman_message
    simp only [hd, if_true, hfl, ne_eq, not_false_eq_true, h1, h2]
  · unfold is_data at hd
    unfold process_cman_message
    simp only [hd, if_true]
    split_ifs <;> exact ⟨rfl, rfl, rfl, rfl, rfl⟩

theorem data_frame_saved_or_delivered_witness :
    process_cman_message cnxman (fresh []) cnxman.CMAN_DISPATCH_IGNORE_DATA data_a =
        (0, { fresh [] with
              heap := (add_to_waitlist cnxman [] [] data_a).1,
              saved_data_msg := [] ++ [data_a.take (cnxman.length data_a)] }) ∧
      process_cman_message cnxman
          { fresh [] with heap := [true, false], saved_data_msg := [data_a] }
          cnxman.CMAN_DISPATCH_IGNORE_DATA data_a =
        (0, { { fresh [] with heap := [true, false], saved_data_msg := [data_a] } with
              heap := (add_to_waitlist cnxman [true, false] [data_a] data_a).1,
              errno := ENOMEM }) :=
  ⟨(data_frame_saved_or_delivered cnxman (fresh []) cnxman.CMAN_DISPATCH_IGNORE_DATA data_a
      (by decide)).1 (by decide) (by decide),
    (data_frame_saved_or_delivered cnxman
      { fresh [] with heap := [true, false], saved_data_msg := [data_a] }
      cnxman.CMAN_DISPATCH_IGNORE_DATA data_a (by decide)).2.1 (by decide) (by decide)⟩

/-- C15: a frame that is not data, not an event and not a reply-flagged frame
met by an armed call is dropped: `process_cman_message` returns 0 and leaves
the whole state as it was (no callback, no list, no call state changes), and
`cman_dispatch`, reading such a frame, returns a positive value. -/
theorem unmatched_frame_dropped (P : Proto) (hP : P.sane) (h : cman_handle) (flags : Nat)
    (f : List Nat) (hnd : ¬ is_data P f) (hne : ¬ is_event P f)
    (hnr : ¬ is_reply P f ∨ h.want_reply = 0) :
    process_cman_message P h flags f = (0, h) ∧
    (∀ more rest, h.magic = P.CMAN_MAGIC → idle P h flags → Frame P f →
      h.sock = Chunk.bytes (f ++ more) :: rest →
      cman_dispatch P h flags = some (read_len P f, { h with sock := unread more rest }) ∧
        0 < read_len P f) := by
  refine ⟨process_other P h flags f hnd hnr hne, ?_⟩
  intro more rest hm hi hf hs
  have hd := cman_dispatch_frame P hP h flags f more rest hm hi hf hs
  rw [process_other P { h with sock := unread more rest } flags f hnd hnr hne] at hd
  exact ⟨hd, read_len_pos P hP f hf⟩

theorem unmatched_frame_dropped_witness :
    process_cman_message cnxman (listening []) 0 reply_ok = (0, listening []) :=
  (unmatched_frame_dropped cnxman cnxman_sane (listening []) 0 reply_ok (by decide) (by decide)
    (Or.inr rfl)).1

/-- C16, the code at the failing input: the header of `event_a` has been read
when the read of the rest is interrupted.  The call returns 0 with the header
gone and nothing delivered; the next call takes the eight bytes that were the
rest of `event_a` for a header, swallows `event_b` with them and delivers
nothing either.  (The `length` field of that header lies behind the eight bytes
read: C finds there what `buf` held before, the field reads of `cnxman` take
missing bytes as 0, so the count returned by the second call is that of this
instance.) -/
theorem interrupted_rest_loses_frame :
    cman_dispatch cnxman
        (listening [Chunk.bytes (event_a.take 16), Chunk.err EINTR,
          Chunk.bytes (event_a.drop 16), Chunk.bytes event_b])
        cnxman.CMAN_DISPATCH_BLOCKING =
      some (0, { listening [Chunk.bytes (event_a.drop 16), Chunk.bytes event_b] with
                 errno := EINTR }) ∧
    cman_dispatch cnxman
        { listening [Chunk.bytes (event_a.drop 16), Chunk.bytes event_b] with errno := EINTR }
        cnxman.CMAN_DISPATCH_BLOCKING =
      some (24, { listening [] with errno := EINTR }) := by
  decide

/-- C19: with nothing due and no data to read, a non-blocking `cman_dispatch`
returns 0; no callback is invoked and the lists and the call state are as they
were (only `errno` and the position in the connection script change). -/
theorem dispatch_nothing_to_do (P : Proto) (h : cman_handle) (flags : Nat)
    (hm : h.magic = P.CMAN_MAGIC) (hi : idle P h flags)
    (hnb : flags &&& P.CMAN_DISPATCH_BLOCKING = 0)
    (hs : h.sock = [] ∨ ∃ rest, h.sock = Chunk.err EAGAIN :: rest) :
    cman_dispatch P h flags = some (0, { h with sock := h.sock.tail, errno := EAGAIN }) := by
  have hb := dispatch_body_idle P h flags hi
  have hr : dispatch_read P h flags =
      Step.ret 0 { h with sock := h.sock.tail, errno := EAGAIN } := by
    unfold dispatch_read
    rcases hs with hs | ⟨rest, hs⟩
    · simp [hs, sys_read, hnb, EAGAIN, EINTR]
    · simp [hs, sys_read, EAGAIN, EINTR]
  rw [hr] at hb
  exact cman_dispatch_ret P h _ flags _ hm hb

theorem dispatch_nothing_to_do_witness :
    cman_dispatch cnxman (listening []) 0 =
      some (0, { listening [] with sock := ([] : List Chunk).tail, errno := EAGAIN }) :=
  dispatch_nothing_to_do cnxman (listening []) 0 rfl ⟨Or.inl rfl, Or.inl rfl, Or.inl rfl⟩
    (by decide) (Or.inl rfl)

/-! ## The loop of loopy_writev -/

theorem size_t_nat (n : Nat) (h : n < 2 ^ 64) : size_t (n : Int) = n := by
  rw [size_t_of_range (by omega) (by omega)]; simp

theorem flatten_cons_length (s : List Nat) (r : List (List Nat)) :
    (s :: r).flatten.length = s.length + r.flatten.length := by
  rw [List.flatten_cons, List.length_append]

/-- The inner loop after a write that took everything: it stops at the entry
behind the array when that entry has a length other than 0. -/
theorem skip_written_all (slot : List Nat) (beyond : List (List Nat)) (hslot : slot ≠ [])
    (segs : List (List Nat)) (hcount : segs.length < 2 ^ 64) :
    skip_written segs.flatten.length (segs ++ slot :: beyond) segs.length =
      some (0, slot, beyond, 0) := by
  induction segs with
  | nil =>
    have : ¬ (0 ≥ slot.length) := by
      have := List.length_pos.mpr hslot
      omega
    simp [skip_written, this]
  | cons s r ih =>
    have hr : r.length < 2 ^ 64 := by simp at hcount; omega
    have hsz : size_t (((s :: r).length : Int) - 1) = r.length := by
      have : (((s :: r).length : Int) - 1) = (r.length : Int) := by simp
      rw [this, size_t_nat _ hr]
    have hfl := flatten_cons_length s r
    have hge : (s :: r).flatten.length ≥ s.length := by omega
    have hsub : (s :: r).flatten.length - s.length = r.flatten.length := by omega
    rw [List.cons_append, skip_written, if_pos hge, hsz, hsub]
    exact ih hr

/-- The inner loop after a write that took less than everything: it stops
inside the array, at the entry that holds the first byte not yet written. -/
theorem skip_written_part (tail : List (List Nat)) (segs : List (List Nat)) :
    ∀ len : Nat, len < segs.flatten.length → segs.length < 2 ^ 64 →
      ∃ len1 seg rest before,
        skip_written len (segs ++ tail) segs.length =
            some (len1, seg, rest ++ tail, rest.length + 1) ∧
          segs = before ++ seg :: rest ∧ len = before.flatten.length + len1 ∧
          len1 < seg.length := by
  induction segs with
  | nil => intro len hlen; simp at hlen
  | cons s r ih =>
    intro len hlen hcount
    have hr : r.length < 2 ^ 64 := by simp at hcount; omega
    by_cases hge : len ≥ s.length
    · have hsz : size_t (((s :: r).length : Int) - 1) = r.length := by
        have : (((s :: r).length : Int) - 1) = (r.length : Int) := by simp
        rw [this, size_t_nat _ hr]
      have hfl := flatten_cons_length s r
      have hlt : len - s.length < r.flatten.length := by omega
      obtain ⟨len1, seg, rest, before, hsk, hsplit, hl, hl1⟩ := ih (len - s.length) hlt hr
      refine ⟨len1, seg, rest, s :: before, ?_, ?_, ?_, hl1⟩
      · rw [List.cons_append, skip_written, if_pos hge, hsz]
        exact hsk
      · rw [hsplit]; rfl
      · rw [flatten_cons_length]; omega
    · refine ⟨len, s, r, [], ?_, rfl, by simp, by omega⟩
      rw [List.cons_append, skip_written, if_neg hge]
      rfl

theorem written_split (before : List (List Nat)) (seg : List Nat) (rest : List (List Nat))
    (len1 : Nat) (hl : len1 ≤ seg.length) :
    (before ++ seg :: rest).flatten.take (before.flatten.length + len1) ++
        (seg.drop len1 :: rest).flatten =
      (before ++ seg :: rest).flatten := by
  have h1 : (before ++ seg :: rest).flatten = before.flatten ++ (seg ++ rest.flatten) := by
    simp
  have h2 : (seg.drop len1 :: rest).flatten = seg.drop len1 ++ rest.flatten := by simp
  rw [h1, h2, List.take_append, List.take_append_of_le_length hl, List.append_assoc,
    ← List.append_assoc (seg.take len1), List.take_append_drop]

theorem take_whole_array (segs : List (List Nat)) (tail : List (List Nat)) :
    ((segs ++ tail).take segs.length).flatten = segs.flatten := by
  rw [List.take_left']
  rfl

theorem flatten_pos (segs : List (List Nat)) (hne : segs ≠ []) (hpos : ∀ s ∈ segs, s ≠ []) :
    0 < segs.flatten.length := by
  obtain ⟨s, r, rfl⟩ := List.exists_cons_of_ne_nil hne
  have := List.length_pos.mpr (hpos s (List.mem_cons_self _ _))
  rw [flatten_cons_length]; omega

theorem sys_writev_free (w : Outbound) (mem : List (List Nat)) (iovlen : Nat) (errno : Int)
    (hs : w.script = []) (hc : iovlen ≤ IOV_MAX) :
    sys_writev w mem iovlen errno =
      (((mem.take iovlen).flatten.length : Int), errno,
        { w with sent := w.sent ++ (mem.take iovlen).flatten }) := by
  unfold sys_writev
  rw [if_neg (by omega)]
  simp only [hs]

theorem sys_writev_room (w : Outbound) (mem : List (List Nat)) (iovlen : Nat) (errno : Int)
    (k : Nat) (rest : List WChunk) (hs : w.script = WChunk.room k :: rest)
    (hc : iovlen ≤ IOV_MAX) :
    sys_writev w mem iovlen errno =
      ((((mem.take iovlen).flatten.take k).length : Int), errno,
        { script := rest, sent := w.sent ++ (mem.take iovlen).flatten.take k }) := by
  unfold sys_writev
  rw [if_neg (by omega)]
  simp only [hs]

theorem sys_writev_err (w : Outbound) (mem : List (List Nat)) (iovlen : Nat) (errno : Int)
    (e : Int) (rest : List WChunk) (hs : w.script = WChunk.err e :: rest)
    (hc : iovlen ≤ IOV_MAX) :
    sys_writev w mem iovlen errno = (-1, e, { w with script := rest }) := by
  unfold sys_writev
  rw [if_neg (by omega)]
  simp only [hs]

/-- One pass of the outer loop in which `writev` takes `len > 0` bytes. -/
theorem writev_loop_pass (fuel : Nat) (w w1 : Outbound) (errno errno1 : Int)
    (mem rest : List (List Nat)) (seg : List Nat) (iovlen iovlen1 cnt len len1 : Nat)
    (hi : 0 < iovlen) (hw : sys_writev w mem iovlen errno = ((len : Int), errno1, w1))
    (hl : 0 < len) (hsk : skip_written len mem iovlen = some (len1, seg, rest, iovlen1)) :
    writev_loop (fuel + 1) w errno mem iovlen cnt =
      if iovlen1 ≤ 0 then some (int32 (size_t ((cnt : Int) + len)), errno1, w1)
      else writev_loop fuel w1 errno1 (seg.drop len1 :: rest) iovlen1
        (size_t ((cnt : Int) + len)) := by
  have h0 : ¬ ((len : Int) ≤ 0) := by omega
  rw [writev_loop, if_pos hi]
  simp only [hw, h0, if_false, Int.toNat_ofNat, hsk]

/-- One pass of the outer loop in which `writev` fails or takes nothing. -/
theorem writev_loop_fail (fuel : Nat) (w w1 : Outbound) (errno errno1 : Int)
    (mem : List (List Nat)) (iovlen cnt : Nat) (len : Int)
    (hi : 0 < iovlen) (hw : sys_writev w mem iovlen errno = (len, errno1, w1))
    (hl : len ≤ 0) :
    writev_loop (fuel + 1) w errno mem iovlen cnt = some (len, errno1, w1) := by
  rw [writev_loop, if_pos hi]
  simp only [hw, hl, if_true]

/-- A pass in which `writev` takes all that is left. -/
theorem writev_loop_last (slot : List Nat) (beyond : List (List Nat)) (hslot : slot ≠ [])
    (fuel : Nat) (w w1 : Outbound) (errno errno1 : Int) (segs : List (List Nat)) (cnt : Nat)
    (hne : segs ≠ []) (hpos : ∀ s ∈ segs, s ≠ []) (hcount : segs.length ≤ IOV_MAX)
    (hint : cnt + segs.flatten.length < 2 ^ 31)
    (hw : sys_writev w (segs ++ slot :: beyond) segs.length errno =
      ((segs.flatten.length : Int), errno1, w1)) :
    writev_loop (fuel + 1) w errno (segs ++ slot :: beyond) segs.length cnt =
      some (((cnt + segs.flatten.length : Nat) : Int), errno1, w1) := by
  have hiov : IOV_MAX = 1024 := rfl
  have hn := flatten_pos segs hne hpos
  have hlenpos : 0 < segs.length := List.length_pos.mpr hne
  rw [writev_loop_pass fuel w w1 errno errno1 _ beyond slot _ 0 cnt _ 0 hlenpos hw hn
    (skip_written_all slot beyond hslot segs (by omega))]
  have hsz : size_t ((cnt : Int) + (segs.flatten.length : Int)) = cnt + segs.flatten.length := by
    have : ((cnt : Int) + (segs.flatten.length : Int)) =
        ((cnt + segs.flatten.length : Nat) : Int) := by push_cast; rfl
    rw [this, size_t_nat _ (by omega)]
  rw [if_pos (le_refl 0), hsz, int32_of_range (by omega) (by omega)]

/-- The outer loop of `loopy_writev` when every write takes at least one byte
and the entry behind the array has a length other than 0: all the bytes of the
segments are taken by the connection, once and in order, and the loop returns
their number. -/
theorem writev_loop_all_sent (slot : List Nat) (beyond : List (List Nat)) (hslot : slot ≠ [])
    (errno : Int) (fuel : Nat) :
    ∀ (segs : List (List Nat)) (w : Outbound) (cnt : Nat),
      segs ≠ [] → (∀ s ∈ segs, s ≠ []) → segs.length ≤ IOV_MAX → all_room w.script →
      segs.flatten.length < fuel → cnt + segs.flatten.length < 2 ^ 31 →
      ∃ script1,
        writev_loop fuel w errno (segs ++ slot :: beyond) segs.length cnt =
            some (((cnt + segs.flatten.length : Nat) : Int), errno,
              { script := script1, sent := w.sent ++ segs.flatten }) ∧
          script1 <:+ w.script := by
  induction fuel with
  | zero => intro segs w cnt _ _ _ _ hf; omega
  | succ fuel ih =>
    intro segs w cnt hne hpos hcount hroom hf hint
    have hiov : IOV_MAX = 1024 := rfl
    have hn := flatten_pos segs hne hpos
    have hlenpos : 0 < segs.length := List.length_pos.mpr hne
    have hcnt64 : segs.length < 2 ^ 64 := by omega
    rcases hsc : w.script with _ | ⟨c, rest⟩
    · -- the script is used up: the write takes everything
      have hw := sys_writev_free w (segs ++ slot :: beyond) segs.length errno hsc hcount
      rw [take_whole_array] at hw
      refine ⟨[], ?_, List.suffix_refl _⟩
      rw [writev_loop_last slot beyond hslot fuel w _ errno errno segs cnt hne hpos hcount hint hw]
      simp [hsc]
    · obtain ⟨k, hk, rfl⟩ := hroom c (by rw [hsc]; exact List.mem_cons_self _ _)
      have hroom1 : all_room rest :=
        fun c hc => hroom c (by rw [hsc]; exact List.mem_cons_of_mem _ hc)
      have hw := sys_writev_room w (segs ++ slot :: beyond) segs.length errno k rest hsc hcount
      rw [take_whole_array] at hw
      by_cases hall : segs.flatten.length ≤ k
      · -- the write takes everything
        have htk : segs.flatten.take k = segs.flatten := List.take_of_length_le hall
        rw [htk] at hw
        refine ⟨rest, ?_, List.suffix_cons _ _⟩
        rw [writev_loop_last slot beyond hslot fuel w _ errno errno segs cnt hne hpos hcount hint
          hw]
      · -- the write takes `k` bytes, fewer than there are
        have hklt : k < segs.flatten.length := by omega
        have htl : (segs.flatten.take k).length = k := by
          rw [List.length_take]; omega
        rw [htl] at hw
        obtain ⟨len1, seg, rest1, before, hsk, hsplit, hl, hl1⟩ :=
          skip_written_part (slot :: beyond) segs k hklt hcnt64
        have hne1 : seg.drop len1 ≠ [] := by
          intro h0
          have := congrArg List.length h0
          rw [List.length_drop] at this; simp at this; omega
        have hpos1 : ∀ s ∈ seg.drop len1 :: rest1, s ≠ [] := by
          intro s hs
          rcases List.mem_cons.mp hs with h1 | h1
          · rw [h1]; exact hne1
          · exact hpos s (by rw [hsplit]; simp [h1])
        have hlen1 : (seg.drop len1 :: rest1).length ≤ IOV_MAX := by
          have : segs.length = before.length + (rest1.length + 1) := by
            rw [hsplit]; simp
          simp only [List.length_cons]; omega
        have hsent := written_split before seg rest1 len1 (le_of_lt hl1)
        rw [← hsplit, ← hl] at hsent
        have hrem : (seg.drop len1 :: rest1).flatten.length = segs.flatten.length - k := by
          have := congrArg List.length hsent
          rw [List.length_append, htl] at this
          omega
        obtain ⟨script1, hrec, hsuf⟩ := ih (seg.drop len1 :: rest1)
          { script := rest, sent := w.sent ++ segs.flatten.take k } (cnt + k)
          (List.cons_ne_nil _ _) hpos1 hlen1 hroom1 (by rw [hrem]; omega) (by rw [hrem]; omega)
        refine ⟨script1, ?_, hsuf.trans (List.suffix_cons _ _)⟩
        rw [writev_loop_pass fuel w _ errno errno _ _ seg _ _ cnt k len1 hlenpos hw hk hsk]
        have hsz : size_t ((cnt : Int) + (k : Int)) = cnt + k := by
          have : ((cnt : Int) + (k : Int)) = ((cnt + k : Nat) : Int) := by push_cast; rfl
          rw [this, size_t_nat _ (by omega)]
        rw [if_neg (by omega), hsz]
        have hmem : seg.drop len1 :: (rest1 ++ slot :: beyond) =
            (seg.drop len1 :: rest1) ++ slot :: beyond := rfl
        have hlen2 : rest1.length + 1 = (seg.drop len1 :: rest1).length := rfl
        rw [hmem, hlen2, hrec]
        simp only [List.append_assoc, hsent, hrem]
        congr 3
        omega

/-- The inner loop passes over exactly `len` bytes. -/
theorem skip_written_shrinks (mem : List (List Nat)) :
    ∀ (len iovlen len1 : Nat) (seg : List Nat) (rest : List (List Nat)) (iovlen1 : Nat),
      skip_written len mem iovlen = some (len1, seg, rest, iovlen1) →
      (seg.drop len1 :: rest).flatten.length + len = mem.flatten.length := by
  induction mem with
  | nil => intro len iovlen len1 seg rest iovlen1 h; simp [skip_written] at h
  | cons s r ih =>
    intro len iovlen len1 seg rest iovlen1 h
    rw [skip_written] at h
    split_ifs at h with hge
    · have := ih _ _ _ _ _ _ h
      rw [flatten_cons_length s r]
      omega
    · simp only [Option.some.injEq, Prod.mk.injEq] at h
      obtain ⟨rfl, rfl, rfl, rfl⟩ := h
      rw [flatten_cons_length, flatten_cons_length, List.length_drop]
      omega

/-- More passes than there are bytes to write are never used. -/
theorem writev_loop_enough (fuel : Nat) :
    ∀ (w : Outbound) (errno : Int) (mem : List (List Nat)) (iovlen cnt : Nat),
      mem.flatten.length < fuel →
      writev_loop (fuel + 1) w errno mem iovlen cnt = writev_loop fuel w errno mem iovlen cnt := by
  induction fuel with
  | zero => intro w errno mem iovlen cnt h; omega
  | succ fuel ih =>
    intro w errno mem iovlen cnt hlt
    rw [writev_loop, writev_loop]
    split_ifs with hi
    · rcases hw : sys_writev w mem iovlen errno with ⟨len, errno1, w1⟩
      dsimp only
      split_ifs with hl
      · rfl
      · rcases hsk : skip_written len.toNat mem iovlen with _ | ⟨len1, seg, rest, iovlen1⟩
        · rfl
        · dsimp only
          split_ifs with hz
          · rfl
          · have hsh := skip_written_shrinks mem _ _ _ _ _ _ hsk
            have hpos : 0 < len.toNat := by omega
            exact ih _ _ _ _ _ (by omega)
    · rfl

/-- The bound on the passes in `loopy_writev` loses nothing: with any larger
number of passes allowed the loop gives the same result. -/
theorem loopy_writev_passes (w : Outbound) (errno : Int) (mem : List (List Nat)) (iovlen : Nat)
    (k : Nat) :
    writev_loop (mem.flatten.length + 1 + k) w errno mem iovlen 0 =
      loopy_writev w errno mem iovlen := by
  unfold loopy_writev
  induction k with
  | zero => rfl
  | succ k ih =>
    rw [← ih, ← Nat.add_assoc]
    exact writev_loop_enough _ w errno mem iovlen 0 (by omega)

/-- `loopy_writev` on an array of non-empty segments, when every write takes
at least one byte and the entry behind the array has a length other than 0:
it returns the number of bytes of all the segments, and the connection has
taken exactly their concatenation. -/
theorem loopy_writev_all_sent (slot : List Nat) (beyond : List (List Nat)) (hslot : slot ≠ [])
    (errno : Int) (segs : List (List Nat)) (w : Outbound)
    (hne : segs ≠ []) (hpos : ∀ s ∈ segs, s ≠ []) (hcount : segs.length ≤ IOV_MAX)
    (hroom : all_room w.script) (hint : segs.flatten.length < 2 ^ 31) :
    ∃ script1,
      loopy_writev w errno (segs ++ slot :: beyond) segs.length =
          some ((segs.flatten.length : Int), errno,
            { script := script1, sent := w.sent ++ segs.flatten }) ∧
        script1 <:+ w.script := by
  have hlen : segs.flatten.length < (segs ++ slot :: beyond).flatten.length + 1 := by
    simp only [List.flatten_append, List.length_append]
    omega
  obtain ⟨script1, h1, h2⟩ := writev_loop_all_sent slot beyond hslot errno _ segs w 0 hne hpos
    hcount hroom hlen (by omega)
  refine ⟨script1, ?_, h2⟩
  unfold loopy_writev
  rw [h1]
  simp

/-! ## The write of a request -/

/-- `info_call` never acts on the result of the write: the value is stored in
a `size_t`, so the test `len < 0` is false whatever `loopy_writev` returned, and
the call goes on to `wait_for_reply`. -/
theorem info_call_goes_on (P : Proto) (L : Layout) (fuel : Nat) (h : cman_handle)
    (w w1 : Outbound) (msgtype : Nat) (inbuf : Option (List Nat)) (inlen : Int)
    (outbuf : List Nat) (outlen : Int) (stack : List (List Nat)) (ret errno1 : Int)
    (hs : send_request P L w h.errno msgtype inbuf inlen stack = some (ret, errno1, w1)) :
    info_call P L fuel h w msgtype inbuf inlen outbuf outlen stack =
      (wait_for_reply P fuel { h with errno := errno1 } outbuf outlen).map
        (fun r => (r.1, r.2.1, r.2.2, w1)) := by
  unfold info_call
  simp only [hs]
  have : ¬ ((size_t ret : Int) < 0) := by omega
  rw [if_neg this]
  rcases wait_for_reply P fuel { h with errno := errno1 } outbuf outlen with _ | ⟨ret1, out, h2⟩ <;>
    rfl

/-- C11, the code at the failing input: the write of the request fails with
`EPIPE` (32) and nothing is sent; `info_call` arms the call all the same, reads
the reply frame that the connection delivers and returns its status 0, with
the body copied to the caller's buffer. -/
theorem write_failure_ignored :
    info_call cnxman cnxman_layout 1 (fresh [Chunk.bytes reply_ok])
        { open_pipe with script := [WChunk.err 32] } 7 none 0 (List.replicate 16 0) 16 [[1]] =
      some (0, [1, 2, 3, 4, 5, 6, 7, 8, 0, 0, 0, 0, 0, 0, 0, 0], { fresh [] with errno := 32 },
        open_pipe) := by
  decide

/-- C17, the code at the failing input: one segment of 16 bytes, all taken by
the first `writev`; the entry behind the array has `iov_len` 0, so the inner
loop steps over it, `iovlen` wraps round, the next `writev` is refused, and
`loopy_writev` returns -1 although every byte has been sent. -/
theorem loopy_writev_runs_off :
    loopy_writev open_pipe 0 [mk_frame 7 [], [], [1]] 1 =
      some (-1, EINVAL, { script := [], sent := mk_frame 7 [] }) := by
  decide

/-- A `writev` that fails ends the loop of `loopy_writev` in whatever pass it
happens: -1 is returned with the `errno` of the failure. -/
theorem writev_loop_err (e : Int) (rest : List WChunk) (w : Outbound)
    (hs : w.script = WChunk.err e :: rest) (fuel : Nat) (errno : Int) (mem : List (List Nat))
    (iovlen cnt : Nat) (hi : 0 < iovlen) (hc : iovlen ≤ IOV_MAX) :
    writev_loop (fuel + 1) w errno mem iovlen cnt = some (-1, e, { w with script := rest }) :=
  writev_loop_fail fuel w _ errno e mem iovlen cnt (-1) hi
    (sys_writev_err w mem iovlen errno e rest hs hc) (by omega)

/-- A failed first `writev` of `cman_send_data` is the result of the call. -/
theorem cman_send_data_err (P : Proto) (L : Layout) (h : cman_handle) (w : Outbound)
    (buf : List Nat) (len : Int) (flags port : Nat) (nodeid : Int) (stack : List (List Nat))
    (e : Int) (rest : List WChunk) (hs : w.script = WChunk.err e :: rest)
    (hm : h.magic = P.CMAN_MAGIC) :
    cman_send_data P L h w buf len flags port nodeid stack =
      some (-1, { h with errno := e }, { w with script := rest }) := by
  have hiov : IOV_MAX = 1024 := rfl
  unfold cman_send_data loopy_writev
  simp only [hm, ne_eq, not_true_eq_false, if_false]
  rw [writev_loop_err e rest w hs _ h.errno _ 2 0 (by omega) (by omega)]

/-- C18 fails as stated: the first `writev` of `cman_send_data` is interrupted;
the call returns -1 with `errno = EINTR` and not a byte is sent, although the
connection would have taken everything at the next attempt. -/
theorem interrupted_write_not_retried :
    cman_send_data cnxman cnxman_layout (fresh []) { open_pipe with script := [WChunk.err EINTR] }
        [7, 7, 7] 3 0 5 3 [[1]] =
      some (-1, { fresh [] with errno := EINTR }, open_pipe) :=
  cman_send_data_err cnxman cnxman_layout (fresh []) { open_pipe with script := [WChunk.err EINTR] }
    [7, 7, 7] 3 0 5 3 [[1]] EINTR [] rfl rfl

/-- C18 (amended): a `writev` that fails is not retried, whatever its `errno`,
`EINTR` included: in whatever pass of its loop it happens, `loopy_writev`
returns -1 at once with that `errno` and sends nothing more, and
`cman_send_data` returns that -1 to its caller. -/
theorem write_error_returned (e : Int) (rest : List WChunk) (w : Outbound)
    (hs : w.script = WChunk.err e :: rest) :
    (∀ (fuel : Nat) (errno : Int) (mem : List (List Nat)) (iovlen cnt : Nat),
      0 < iovlen → iovlen ≤ IOV_MAX →
      writev_loop (fuel + 1) w errno mem iovlen cnt = some (-1, e, { w with script := rest })) ∧
    (∀ (errno : Int) (mem : List (List Nat)) (iovlen : Nat), 0 < iovlen → iovlen ≤ IOV_MAX →
      loopy_writev w errno mem iovlen = some (-1, e, { w with script := rest })) ∧
    (∀ (P : Proto) (L : Layout) (h : cman_handle) (buf : List Nat) (len : Int)
      (flags port : Nat) (nodeid : Int) (stack : List (List Nat)), h.magic = P.CMAN_MAGIC →
      cman_send_data P L h w buf len flags port nodeid stack =
        some (-1, { h with errno := e }, { w with script := rest })) :=
  ⟨fun fuel errno mem iovlen cnt hi hc => writev_loop_err e rest w hs fuel errno mem iovlen cnt hi hc,
    fun errno mem iovlen hi hc => writev_loop_err e rest w hs _ errno mem iovlen 0 hi hc,
    fun P L h buf len flags port nodeid stack hm =>
      cman_send_data_err P L h w buf len flags port nodeid stack e rest hs hm⟩

theorem write_error_returned_witness :
    loopy_writev { open_pipe with script := [WChunk.err EINTR] } 0 [[1, 2, 3], [4, 5], [9]] 2 =
      some (-1, EINTR, { { open_pipe with script := [WChunk.err EINTR] } with script := [] }) :=
  (write_error_returned EINTR [] { open_pipe with script := [WChunk.err EINTR] } rfl).2.1 0
    [[1, 2, 3], [4, 5], [9]] 2 (by decide) (by decide)

/-! ## Calls after a failure -/

/-- After end-of-stream the connection is still at its end: `cman_dispatch`
with nothing due returns -1 with `EHOSTDOWN`, and the next read of the
connection finds end-of-stream again. -/
theorem cman_dispatch_eof_stays (P : Proto) (h : cman_handle) (flags : Nat)
    (hm : h.magic = P.CMAN_MAGIC) (hi : idle P h flags) (he : at_eof P h.sock) :
    ∃ rest, cman_dispatch P h flags =
      some (-1, { h with sock := Chunk.eof :: rest, errno := EHOSTDOWN }) := by
  have hb := dispatch_body_idle P h flags hi
  rcases he with ⟨rest, hs⟩ | ⟨hb1, rest, hs, hne, hle, hfit, hlen⟩
  · refine ⟨rest, cman_dispatch_ret P h _ flags _ hm ?_⟩
    rw [hb]
    unfold dispatch_read
    simp [hs, sys_read]
  · refine ⟨rest, cman_dispatch_ret P h _ flags _ hm ?_⟩
    rw [hb]
    have hpb : PIPE_BUF = 4096 := rfl
    have hd : hb1.drop P.sizeof_sock_header = [] := List.drop_eq_nil_of_le hle
    have hpos : 0 < hb1.length := List.length_pos.mpr hne
    have hu : uint32 (hb1.length : Int) = hb1.length := by
      rw [uint32_of_range (by omega) (by omega)]; simp
    have h0 : ¬ ((hb1.length : Int) = 0) := by omega
    have h1 : ¬ ((hb1.length : Int) < 0) := by omega
    have h2 : ¬ (hb1.length = P.length hb1) := fun c => hlen c.symm
    unfold dispatch_read
    simp only [hs, sys_read, hne, if_false, hd, if_true, h0, h1, false_and, hu, ne_eq, h2,
      not_false_eq_true]

/-- The write of a request without input, when every write takes at least one
byte and the entry behind `iov[0]` has a length other than 0: the header is
sent, whole and once. -/
theorem send_request_sent (P : Proto) (L : Layout) (w : Outbound) (errno : Int) (msgtype : Nat)
    (slot : List Nat) (beyond : List (List Nat)) (hslot : slot ≠ [])
    (hhdr : request_header P L msgtype 0 ≠ [])
    (hint : (request_header P L msgtype 0).length < 2 ^ 31) (hroom : all_room w.script) :
    ∃ script1,
      send_request P L w errno msgtype none 0 (slot :: beyond) =
        some (((request_header P L msgtype 0).length : Int), errno,
          { script := script1, sent := w.sent ++ request_header P L msgtype 0 }) := by
  obtain ⟨script1, h1, -⟩ := loopy_writev_all_sent slot beyond hslot errno
    [request_header P L msgtype 0] w (by simp)
    (by intro s hs; simp only [List.mem_singleton] at hs; subst hs; exact hhdr)
    (by have : IOV_MAX = 1024 := rfl
        simp only [List.length_singleton]; omega)
    hroom (by simpa using hint)
  refine ⟨script1, ?_⟩
  simp only [List.singleton_append, List.length_singleton, List.flatten_cons, List.flatten_nil,
    List.append_nil] at h1
  unfold send_request
  exact h1

/-! ## The call state after a failed wait -/

/-- The reading part of the loop body when the read of the header fails with
an `errno` other than `EINTR` and `EAGAIN`. -/
theorem dispatch_read_error (P : Proto) (h : cman_handle) (flags : Nat) (e : Int)
    (rest : List Chunk) (hs : h.sock = Chunk.err e :: rest) (h1 : e ≠ EINTR) (h2 : e ≠ EAGAIN) :
    dispatch_read P h flags = Step.ret (-1) { h with sock := rest, errno := e } := by
  unfold dispatch_read
  simp [hs, sys_read, h1, h2]

/-- With nothing due, a failed read of the header makes `cman_dispatch` return
-1 and changes nothing but `errno` and the position in the connection. -/
theorem cman_dispatch_error (P : Proto) (h : cman_handle) (flags : Nat) (e : Int)
    (rest : List Chunk) (hm : h.magic = P.CMAN_MAGIC) (hi : idle P h flags)
    (hs : h.sock = Chunk.err e :: rest) (h1 : e ≠ EINTR) (h2 : e ≠ EAGAIN) :
    cman_dispatch P h flags = some (-1, { h with sock := rest, errno := e }) := by
  have hb := dispatch_body_idle P h flags hi
  rw [dispatch_read_error P h flags e rest hs h1 h2] at hb
  exact cman_dispatch_ret P h _ flags _ hm hb

/-- When the first `cman_dispatch` of the wait fails, `wait_for_reply` returns
-1 and the state is the one that `cman_dispatch` left, with `reply_buffer` and
`reply_buflen` reset: `want_reply` is not touched. -/
theorem wait_for_reply_first_fails (P : Proto) (k : Nat) (h h1 : cman_handle) (msg : List Nat)
    (max_len ret : Int)
    (hd : cman_dispatch P { h with want_reply := 1, reply_buffer := msg, reply_buflen := max_len }
      (wait_flags P) = some (ret, h1))
    (hneg : ret < 0) :
    wait_for_reply P (k + 1) h msg max_len =
      some (-1, h1.reply_buffer, { h1 with reply_buffer := [], reply_buflen := 0 }) := by
  have hl := wait_loop_succ P k
    { h with want_reply := 1, reply_buffer := msg, reply_buflen := max_len } h1 ret hd
  have hno : ¬ (h1.want_reply = 1 ∧ ret ≥ 0) := by omega
  rw [if_neg hno] at hl
  unfold wait_for_reply
  simp only [hl]
  rw [if_pos hneg]

/-- A synchronous call whose wait is ended by a failed read returns -1 and
leaves the call armed: `want_reply` is 1 afterwards, with `reply_buffer` and
`reply_buflen` reset. -/
theorem wait_for_reply_error_armed (P : Proto) (hP : P.sane) (k : Nat) (h : cman_handle)
    (msg : List Nat) (max_len : Int) (e : Int) (rest : List Chunk)
    (hm : h.magic = P.CMAN_MAGIC) (hq : h.saved_reply_msg = [])
    (hs : h.sock = Chunk.err e :: rest) (h1 : e ≠ EINTR) (h2 : e ≠ EAGAIN) :
    wait_for_reply P (k + 1) h msg max_len =
      some (-1, msg,
        { h with want_reply := 1, reply_buffer := [], reply_buflen := 0, sock := rest,
                 errno := e }) := by
  have hd := cman_dispatch_error P
    { h with want_reply := 1, reply_buffer := msg, reply_buflen := max_len } (wait_flags P) e rest
    hm (idle_wait P hP _ hq) hs h1 h2
  rw [wait_for_reply_first_fails P k h _ msg max_len (-1) hd (by omega)]

/-- A synchronous call whose wait is ended by end-of-stream returns -1 and
leaves the call armed. -/
theorem wait_for_reply_eof_armed (P : Proto) (hP : P.sane) (k : Nat) (h : cman_handle)
    (msg : List Nat) (max_len : Int) (hm : h.magic = P.CMAN_MAGIC)
    (hq : h.saved_reply_msg = []) (he : at_eof P h.sock) :
    ∃ rest, wait_for_reply P (k + 1) h msg max_len =
      some (-1, msg,
        { h with want_reply := 1, reply_buffer := [], reply_buflen := 0,
                 sock := Chunk.eof :: rest, errno := EHOSTDOWN }) := by
  obtain ⟨rest, hd⟩ := cman_dispatch_eof_stays P
    { h with want_reply := 1, reply_buffer := msg, reply_buflen := max_len } (wait_flags P)
    hm (idle_wait P hP _ hq) he
  refine ⟨rest, ?_⟩
  rw [wait_for_reply_first_fails P k h _ msg max_len (-1) hd (by omega)]

/-- A reply-flagged frame read by `cman_dispatch` while `want_reply` is not 0
and replies are not suppressed is consumed as a reply: its status is stored and
`want_reply` becomes 0. -/
theorem armed_dispatch_takes_reply (P : Proto) (hP : P.sane) (h : cman_handle) (flags : Nat)
    (f more : List Nat) (rest : List Chunk) (hm : h.magic = P.CMAN_MAGIC)
    (hi : idle P h flags) (hf : Frame P f) (hs : h.sock = Chunk.bytes (f ++ more) :: rest)
    (hnd : ¬ is_data P f) (hr : is_reply P f) (hw : h.want_reply ≠ 0)
    (hfl : flags &&& P.CMAN_DISPATCH_IGNORE_REPLY = 0) :
    ∃ h1, cman_dispatch P h flags = some (read_len P f, h1) ∧
      h1.want_reply = 0 ∧ h1.reply_status = P.status f ∧
      (process_cman_message P { h with sock := unread more rest } flags f).1 = 1 := by
  have hd := cman_dispatch_frame P hP h flags f more rest hm hi hf hs
  have hp := process_reply P { h with sock := unread more rest } flags f hnd hr hw hfl
  rw [hp] at hd
  exact ⟨_, hd, rfl, rfl, by rw [hp]⟩

/-- C21, the code at the failing input: the read of the wait fails with
`errno` 5 and `wait_for_reply` returns -1 with `want_reply` still 1 and the
destination reset; the reply frame `reply_err` that arrives after the call has
returned is then consumed as a reply by a plain `cman_dispatch` (its status -22
is stored and `want_reply` becomes 0), whereas the same frame on a session with
no call armed changes nothing. -/
theorem failed_wait_stays_armed :
    wait_for_reply cnxman 1 (fresh [Chunk.err 5, Chunk.bytes reply_err]) [9, 9] 2 =
        some (-1, [9, 9], { fresh [Chunk.bytes reply_err] with want_reply := 1, errno := 5 }) ∧
      cman_dispatch cnxman { fresh [Chunk.bytes reply_err] with want_reply := 1, errno := 5 } 0 =
        some (4, { fresh [] with reply_status := -22, errno := 5 }) ∧
      cman_dispatch cnxman { fresh [Chunk.bytes reply_err] with errno := 5 } 0 =
        some (4, { fresh [] with errno := 5 }) := by
  decide

/-! ## The next call after a failure -/

/-- The write of `info_call` is `loopy_writev` on the request segments. -/
theorem send_request_segments (P : Proto) (L : Layout) (w : Outbound) (errno : Int)
    (msgtype : Nat) (inbuf : Option (List Nat)) (inlen : Int) (stack : List (List Nat)) :
    send_request P L w errno msgtype inbuf inlen stack =
      loopy_writev w errno (request_segments P L msgtype inbuf inlen ++ stack)
        (request_segments P L msgtype inbuf inlen).length := by
  cases inbuf <;> rfl

/-- The write of a request, when no segment is empty, every write takes at
least one byte and the entry behind the array has a length other than 0: the
request is sent, whole and once, and the write returns its length. -/
theorem send_request_all_sent (P : Proto) (L : Layout) (w : Outbound) (errno : Int)
    (msgtype : Nat) (inbuf : Option (List Nat)) (inlen : Int)
    (slot : List Nat) (beyond : List (List Nat)) (hslot : slot ≠ [])
    (hseg : ∀ s ∈ request_segments P L msgtype inbuf inlen, s ≠ [])
    (hint : (request_segments P L msgtype inbuf inlen).flatten.length < 2 ^ 31)
    (hroom : all_room w.script) :
    ∃ script1,
      send_request P L w errno msgtype inbuf inlen (slot :: beyond) =
        some (((request_segments P L msgtype inbuf inlen).flatten.length : Int), errno,
          { script := script1,
            sent := w.sent ++ (request_segments P L msgtype inbuf inlen).flatten }) := by
  have hcount : (request_segments P L msgtype inbuf inlen).length ≤ IOV_MAX := by
    have : IOV_MAX = 1024 := rfl
    cases inbuf <;> simp [request_segments] <;> omega
  obtain ⟨script1, h1, -⟩ := loopy_writev_all_sent slot beyond hslot errno
    (request_segments P L msgtype inbuf inlen) w (by simp [request_segments]) hseg hcount hroom hint
  exact ⟨script1, by rw [send_request_segments, h1]⟩

/-- C20 fails as stated: `cman_dispatch` fails with an I/O error (`errno` 5);
the next `info_call` on the same handle writes its request header to the
connection, reads the reply that has arrived since, and returns its status 0
with the body in the caller's buffer. -/
theorem call_after_error_succeeds :
    cman_dispatch cnxman (fresh [Chunk.err 5, Chunk.bytes reply_ok]) 0 =
        some (-1, { fresh [Chunk.bytes reply_ok] with errno := 5 }) ∧
      info_call cnxman cnxman_layout 1 { fresh [Chunk.bytes reply_ok] with errno := 5 } open_pipe
          7 none 0 (List.replicate 16 0) 16 [[1]] =
        some (0, [1, 2, 3, 4, 5, 6, 7, 8, 0, 0, 0, 0, 0, 0, 0, 0],
          { fresh [] with errno := 5 }, { open_pipe with sent := mk_frame 7 [] }) := by
  constructor <;> decide

/-- C20 (amended): the handle keeps no record of a failure of `cman_dispatch`,
and the next `info_call` on it does its write and its read as any other call:
when the connection takes the request, the request is sent, whole and once,
and the outcome is what the read finds.  After a failure with `EHOSTDOWN` at
end-of-stream the read finds end-of-stream again, and the call returns -1 with
`errno = EHOSTDOWN` and the caller's buffer unchanged.  After a failed read
(an `errno` other than `EINTR` and `EAGAIN`) the call returns the status of the
reply that the connection delivers then, with the body in the caller's
buffer. -/
theorem call_after_peer_unreachable (P : Proto) (hP : P.sane) (L : Layout) (h : cman_handle)
    (flags : Nat) (hm : h.magic = P.CMAN_MAGIC) (hi : idle P h flags)
    (hh : heap_ok h.heap) (hq : h.saved_reply_msg = [])
    (w : Outbound) (msgtype : Nat) (inbuf : Option (List Nat)) (inlen : Int)
    (outbuf : List Nat) (outlen : Int) (slot : List Nat) (beyond : List (List Nat))
    (hslot : slot ≠ []) (hseg : ∀ s ∈ request_segments P L msgtype inbuf inlen, s ≠ [])
    (hint : (request_segments P L msgtype inbuf inlen).flatten.length < 2 ^ 31)
    (hroom : all_room w.script) :
    (at_eof P h.sock →
      ∃ h1, cman_dispatch P h flags = some (-1, h1) ∧ h1.errno = EHOSTDOWN ∧
        ∀ k : Nat, ∃ h2 script1,
          info_call P L (k + 1) h1 w msgtype inbuf inlen outbuf outlen (slot :: beyond) =
            some (-1, outbuf, h2,
              { script := script1,
                sent := w.sent ++ (request_segments P L msgtype inbuf inlen).flatten }) ∧
          h2.errno = EHOSTDOWN) ∧
    (∀ (e : Int) (rest s1 : List Chunk) (pre : List (List Nat)) (r : List Nat),
      h.sock = Chunk.err e :: rest → e ≠ EINTR → e ≠ EAGAIN →
      (∀ f ∈ pre, Frame P f ∧ (is_data P f ∨ ¬ is_reply P f)) →
      Frame P r → ¬ is_data P r → is_reply P r → Arrives (pre ++ [r]) rest s1 →
      cman_dispatch P h flags = some (-1, { h with sock := rest, errno := e }) ∧
        ∀ k : Nat, ∃ h2 script1,
          info_call P L (pre.length + 1 + k) { h with sock := rest, errno := e } w msgtype inbuf
              inlen outbuf outlen (slot :: beyond) =
            some (status_result (P.status r), reply_copy P outbuf outlen r, h2,
              { script := script1,
                sent := w.sent ++ (request_segments P L msgtype inbuf inlen).flatten })) := by
  constructor
  · intro he
    obtain ⟨rest, hd⟩ := cman_dispatch_eof_stays P h flags hm hi he
    refine ⟨_, hd, rfl, ?_⟩
    intro k
    obtain ⟨script1, hs⟩ := send_request_all_sent P L w EHOSTDOWN msgtype inbuf inlen slot beyond
      hslot hseg hint hroom
    rw [info_call_goes_on P L (k + 1) { h with sock := Chunk.eof :: rest, errno := EHOSTDOWN }
      w _ msgtype inbuf inlen outbuf outlen (slot :: beyond) _ _ hs]
    obtain ⟨h2, hw, herr, -⟩ := wait_for_reply_eof P hP
      { h with sock := Chunk.eof :: rest, errno := EHOSTDOWN } hm outbuf outlen []
      (Chunk.eof :: rest) k hh hq (by intro f hf; cases hf) rfl (Or.inl ⟨rest, rfl⟩)
    simp only [List.length_nil, Nat.zero_add] at hw
    refine ⟨h2, script1, ?_, herr⟩
    dsimp only
    rw [hw]
    rfl
  · intro e rest s1 pre r hs he1 he2 hpre hr hrd hrr harr
    refine ⟨cman_dispatch_error P h flags e rest hm hi hs he1 he2, ?_⟩
    intro k
    obtain ⟨script1, hsend⟩ := send_request_all_sent P L w e msgtype inbuf inlen slot beyond
      hslot hseg hint hroom
    rw [info_call_goes_on P L (pre.length + 1 + k) { h with sock := rest, errno := e }
      w _ msgtype inbuf inlen outbuf outlen (slot :: beyond) _ _ hsend]
    obtain ⟨heap1, -, hw⟩ := wait_for_reply_frames P hP { h with sock := rest, errno := e }
      outbuf outlen pre r s1 (pre.length + 1 + k) hm hh hq hpre hr hrd hrr harr (by omega)
    dsimp only
    rw [hw]
    exact ⟨_, script1, rfl⟩

theorem call_after_peer_unreachable_witness :
    (∃ h1, cman_dispatch cnxman (fresh [Chunk.eof]) 0 = some (-1, h1) ∧ h1.errno = EHOSTDOWN ∧
      ∀ k : Nat, ∃ h2 script1,
        info_call cnxman cnxman_layout (k + 1) h1 open_pipe 7 (some [4, 5, 6]) 3 [9, 9] 2
            ([1] :: []) =
          some (-1, [9, 9], h2,
            { script := script1,
              sent := open_pipe.sent ++
                (request_segments cnxman cnxman_layout 7 (some [4, 5, 6]) 3).flatten }) ∧
        h2.errno = EHOSTDOWN) :=
  (call_after_peer_unreachable cnxman cnxman_sane cnxman_layout (fresh [Chunk.eof]) 0 rfl
    ⟨Or.inl rfl, Or.inl rfl, Or.inl rfl⟩ (by intro b hb; cases hb) rfl open_pipe 7
    (some [4, 5, 6]) 3 [9, 9] 2 [1] [] (by decide) (by decide) (by decide)
    (by intro c hc; cases hc)).1 (Or.inl ⟨[], rfl⟩)

end Cman
